import Mathlib

/-!
Shallow embedding of the resilience layer of `mcp-ailint`:
the retry executor (`src/shared/retry.ts`), the TTL/LRU cache and the
circuit breaker (the unnamed cache/circuit-breaker module), and the
graceful-degradation manager (`src/shared/degradation.ts`), together with
theorems settling the frozen claims about them.

Conventions: JavaScript millisecond timestamps are modelled as `Int`
(`Date.now()` values and TTLs), delay arithmetic as `ℚ` (JS numbers used
only through `*`, `min`, `max` in `calculateDelay`), the JS `Map` as an
insertion-ordered association list with unique keys, and asynchronous
operations as pure functions from the attempt number (or the call) to an
`Except`/`Bool` outcome.  `await`ing an operation or a delay has no effect
on the state these claims are about, so it is elided.
-/

namespace AILint

/-! ## Retry executor (`src/shared/retry.ts`, class `RetryManager`) -/

/-- `RetryResult<T>` of `retry.ts` (the `totalDuration` field is wall-clock
bookkeeping and is not modelled).  `error = none` encodes the `undefined`
`lastError` that the code would return when `maxAttempts = 0`. -/
structure RetryResult (E V : Type) where
  success : Bool
  result : Option V
  error : Option E
  attempts : Nat
deriving Repr, DecidableEq

/-- The `for (let attempt = 1; attempt <= maxAttempts; attempt++)` loop of
`RetryManager.executeWithRetry`, with `remaining` the number of loop
iterations still allowed (`maxAttempts - attempt + 1`); `remaining = 0`
at the top level is the never-entered loop.  The operation `op` maps the
1-indexed attempt number to its outcome; `cond` is
`config.retryCondition`.  The loop breaks (returning failure with the
last error) when `attempt === config.maxAttempts` — here `r = 0` — or the
retry condition rejects the error. -/
def retryAux {E V : Type} (cond : E → Bool) (op : Nat → Except E V) :
    (attempt : Nat) → (remaining : Nat) → RetryResult E V
  | _, 0 => { success := false, result := none, error := none, attempts := 0 }
  | attempt, r + 1 =>
    match op attempt with
    | .ok v => { success := true, result := some v, error := none, attempts := attempt }
    | .error e =>
      if r = 0 ∨ cond e = false then
        { success := false, result := none, error := some e, attempts := attempt }
      else
        retryAux cond op (attempt + 1) r

/-- `RetryManager.executeWithRetry(operation, options)`: run the loop from
attempt 1 with `maxAttempts` iterations allowed. -/
def executeWithRetry {E V : Type} (maxAttempts : Nat) (cond : E → Bool)
    (op : Nat → Except E V) : RetryResult E V :=
  retryAux cond op 1 maxAttempts

/-- The delay-relevant fields of `RetryOptions` in `retry.ts`
(`retryCondition` is passed separately to `executeWithRetry`, and
`maxAttempts` is its own argument there; neither enters the delay
computation). -/
structure RetryOptions where
  baseDelay : ℚ
  maxDelay : ℚ
  backoffMultiplier : ℚ
  jitter : Bool

/-- The `exponentialDelay` local of `RetryManager.calculateDelay`:
`Math.min(baseDelay * backoffMultiplier ** (attempt - 1), maxDelay)`. -/
def exponentialDelay (o : RetryOptions) (attempt : Nat) : ℚ :=
  min (o.baseDelay * o.backoffMultiplier ^ (attempt - 1)) o.maxDelay

/-- `RetryManager.calculateDelay(attempt, options)`, with `rand` the value
drawn from `Math.random()` (an element of `[0, 1)`): with jitter, the
result is `Math.max(0, exponentialDelay + (rand - 0.5) * 2 * (exponentialDelay * 0.25))`. -/
def calculateDelay (o : RetryOptions) (attempt : Nat) (rand : ℚ) : ℚ :=
  let d := exponentialDelay o attempt
  if o.jitter then
    let jitterRange := d * (25 / 100)
    let jitterValue := (rand - 1 / 2) * 2 * jitterRange
    max 0 (d + jitterValue)
  else
    d

/-- Attempt-count window of the retry loop: when at least one iteration is
allowed, the reported attempt number lies between the starting attempt and
the last allowed one. -/
theorem retryAux_attempts_bounds {E V : Type} (cond : E → Bool) (op : Nat → Except E V) :
    ∀ (r a : Nat), 1 ≤ r →
      a ≤ (retryAux cond op a r).attempts ∧ (retryAux cond op a r).attempts ≤ a + r - 1 := by
  intro r
  induction r with
  | zero => intro a h; omega
  | succ n ih =>
    intro a _
    cases hop : op a with
    | ok v => simp [retryAux, hop]
    | error e =>
      by_cases hstop : n = 0 ∨ cond e = false
      · simp [retryAux, hop, hstop]
      · have hn : 1 ≤ n := by
          rcases Nat.eq_zero_or_pos n with h0 | h1
          · exact absurd (Or.inl h0) hstop
          · exact h1
        have := ih (a + 1) hn
        simp only [retryAux, hop, if_neg hstop]
        omega

/-- If every attempt before `k` fails with an error the retry condition
accepts, and attempt `k` (within the window) succeeds, the loop returns
success at attempt `k`. -/
theorem retryAux_first_success {E V : Type} (cond : E → Bool) (op : Nat → Except E V)
    (v : V) :
    ∀ (d a r : Nat), a + d ≤ a + r - 1 → 1 ≤ r →
      op (a + d) = .ok v →
      (∀ j, a ≤ j → j < a + d → ∃ e, op j = .error e ∧ cond e = true) →
      retryAux cond op a r =
        { success := true, result := some v, error := none, attempts := a + d } := by
  intro d
  induction d with
  | zero =>
    intro a r _ hr hok _
    obtain ⟨r', rfl⟩ := Nat.exists_eq_add_of_le hr
    rw [show 1 + r' = r' + 1 from by omega]
    simp only [Nat.add_zero] at hok
    simp [retryAux, hok]
  | succ n ih =>
    intro a r hwin hr hok hfail
    obtain ⟨e, he, hce⟩ := hfail a le_rfl (by omega)
    have hr2 : 2 ≤ r := by omega
    obtain ⟨r', rfl⟩ := Nat.exists_eq_add_of_le hr2
    rw [show 2 + r' = (1 + r') + 1 from by omega]
    have hnotstop : ¬ (1 + r' = 0 ∨ cond e = false) := by
      simp [hce]
    simp only [retryAux, he, if_neg hnotstop]
    have := ih (a + 1) (1 + r') (by omega) (by omega)
      (by rw [show a + 1 + n = a + (n + 1) from by omega]; exact hok)
      (fun j hj1 hj2 => hfail j (by omega) (by omega))
    rw [this]
    congr 1
    omega

/-- **C6.** `executeWithRetry` makes at most `maxAttempts` 1-indexed
attempts: (i) for `maxAttempts ≥ 1` the reported attempt count lies in
`[1, maxAttempts]`; (ii) an operation that fails on attempts 1 and 2 and
succeeds on attempt 3, run with `maxAttempts = 5` and an always-true
predicate, yields success with `attempts = 3`; (iii) the same operation
with `maxAttempts = 2` yields failure with `attempts = 2` carrying the
error of attempt 2; (iv) a predicate rejecting the first error yields
failure with `attempts = 1` for every `maxAttempts ≥ 1`; (v) in general
the first success within the window ends the loop, all earlier attempts
having failed retryably. -/
theorem executeWithRetry_attempt_semantics :
    (∀ (E V : Type) (m : Nat) (cond : E → Bool) (op : Nat → Except E V), 1 ≤ m →
      1 ≤ (executeWithRetry m cond op).attempts ∧
        (executeWithRetry m cond op).attempts ≤ m)
  ∧ (∀ (E V : Type) (op : Nat → Except E V) (e₁ e₂ : E) (v : V),
      op 1 = .error e₁ → op 2 = .error e₂ → op 3 = .ok v →
      executeWithRetry 5 (fun _ => true) op =
        { success := true, result := some v, error := none, attempts := 3 })
  ∧ (∀ (E V : Type) (op : Nat → Except E V) (e₁ e₂ : E),
      op 1 = .error e₁ → op 2 = .error e₂ →
      executeWithRetry 2 (fun _ => true) op =
        { success := false, result := none, error := some e₂, attempts := 2 })
  ∧ (∀ (E V : Type) (m : Nat) (cond : E → Bool) (op : Nat → Except E V) (e₁ : E),
      1 ≤ m → op 1 = .error e₁ → cond e₁ = false →
      executeWithRetry m cond op =
        { success := false, result := none, error := some e₁, attempts := 1 })
  ∧ (∀ (E V : Type) (m k : Nat) (cond : E → Bool) (op : Nat → Except E V) (v : V),
      1 ≤ k → k ≤ m → op k = .ok v →
      (∀ j, 1 ≤ j → j < k → ∃ e, op j = .error e ∧ cond e = true) →
      executeWithRetry m cond op =
        { success := true, result := some v, error := none, attempts := k }) := by
  refine ⟨?_, ?_, ?_, ?_, ?_⟩
  · intro E V m cond op hm
    have h := retryAux_attempts_bounds cond op m 1 hm
    refine ⟨h.1, ?_⟩
    show (retryAux cond op 1 m).attempts ≤ m
    omega
  · intro E V op e₁ e₂ v h1 h2 h3
    show retryAux _ op 1 5 = _
    simp [retryAux, h1, h2, h3]
  · intro E V op e₁ e₂ h1 h2
    show retryAux _ op 1 2 = _
    simp [retryAux, h1, h2]
  · intro E V m cond op e₁ hm h1 hc
    obtain ⟨m', rfl⟩ := Nat.exists_eq_add_of_le hm
    show retryAux cond op 1 (1 + m') = _
    rw [show 1 + m' = m' + 1 by omega]
    simp [retryAux, h1, hc]
  · intro E V m k cond op v hk hkm hok hfail
    have := retryAux_first_success cond op v (k - 1) 1 m (by omega) (by omega)
      (by rw [show 1 + (k - 1) = k by omega]; exact hok)
      (fun j hj1 hj2 => hfail j hj1 (by omega))
    rw [executeWithRetry, this]
    congr 1
    omega

/-- Witness for C6 at a concrete operation failing on attempts 1–2 with
error codes 11 and 12 and succeeding with value 7 on attempt 3. -/
theorem executeWithRetry_attempt_semantics_witness :
    executeWithRetry 5 (fun _ => true)
        (fun n => if n = 1 then .error 11 else if n = 2 then .error 12 else .ok 7) =
      { success := true, result := some 7, error := none, attempts := 3 } :=
  executeWithRetry_attempt_semantics.2.1 Nat Nat
    (fun n => if n = 1 then .error 11 else if n = 2 then .error 12 else .ok 7)
    11 12 7 rfl rfl rfl

/-- The option record of the spec's backoff example: `baseDelay = 100`,
`backoffMultiplier = 2`, jitter disabled, default `maxDelay = 10000`. -/
def backoffExampleOptions : RetryOptions :=
  { baseDelay := 100, maxDelay := 10000, backoffMultiplier := 2, jitter := false }

/-- **C7.** The delay computed after failed attempt `n` (i.e. before
attempt `n + 1`): (i) without jitter it equals
`min(maxDelay, baseDelay * backoffMultiplier ^ (n - 1))`; (ii) with
`baseDelay = 100`, multiplier 2 and jitter disabled the delays before
attempts 2, 3, 4 are 100, 200, 400 ms; (iii) with jitter enabled and
nonnegative base, cap and multiplier, every draw of `Math.random()`
yields a delay within ±25% of the unjittered value, and the delay is
never negative. -/
theorem calculateDelay_backoff_semantics :
    (∀ (o : RetryOptions) (n : Nat) (r : ℚ), o.jitter = false →
      calculateDelay o n r = min o.maxDelay (o.baseDelay * o.backoffMultiplier ^ (n - 1)))
  ∧ (calculateDelay backoffExampleOptions 1 0 = 100 ∧
     calculateDelay backoffExampleOptions 2 0 = 200 ∧
     calculateDelay backoffExampleOptions 3 0 = 400)
  ∧ (∀ (o : RetryOptions) (n : Nat) (r : ℚ), o.jitter = true →
      0 ≤ r → r ≤ 1 → 0 ≤ o.baseDelay → 0 ≤ o.maxDelay → 0 ≤ o.backoffMultiplier →
      |calculateDelay o n r - exponentialDelay o n| ≤ exponentialDelay o n / 4 ∧
        0 ≤ calculateDelay o n r) := by
  refine ⟨?_, ⟨by norm_num [calculateDelay, exponentialDelay, backoffExampleOptions],
      by norm_num [calculateDelay, exponentialDelay, backoffExampleOptions],
      by norm_num [calculateDelay, exponentialDelay, backoffExampleOptions]⟩, ?_⟩
  · intro o n r hj
    simp [calculateDelay, hj, exponentialDelay, min_comm]
  · intro o n r hj hr0 hr1 hb hm hmult
    have hd : 0 ≤ exponentialDelay o n :=
      le_min (mul_nonneg hb (pow_nonneg hmult _)) hm
    set d := exponentialDelay o n with hdef
    have hjv : calculateDelay o n r = max 0 (d + (r - 1 / 2) * 2 * (d * (25 / 100))) := by
      simp [calculateDelay, hj, hdef]
    have hlow : d + (r - 1 / 2) * 2 * (d * (25 / 100)) ≥ d - d / 4 := by nlinarith
    have hhigh : d + (r - 1 / 2) * 2 * (d * (25 / 100)) ≤ d + d / 4 := by nlinarith
    have hpos : 0 ≤ d + (r - 1 / 2) * 2 * (d * (25 / 100)) := by nlinarith
    rw [hjv, max_eq_right hpos]
    constructor
    · rw [abs_le]
      constructor <;> nlinarith
    · exact hpos

/-- Witness for C7: at `n = 3`, `rand = 1`, jitter on, base 100,
multiplier 2, the delay is within ±25% of 400 and nonnegative. -/
theorem calculateDelay_backoff_semantics_witness :
    |calculateDelay { backoffExampleOptions with jitter := true } 3 1 -
        exponentialDelay { backoffExampleOptions with jitter := true } 3| ≤
      exponentialDelay { backoffExampleOptions with jitter := true } 3 / 4 ∧
    0 ≤ calculateDelay { backoffExampleOptions with jitter := true } 3 1 :=
  calculateDelay_backoff_semantics.2.2 { backoffExampleOptions with jitter := true } 3 1
    rfl (by norm_num) (by norm_num) (by norm_num [backoffExampleOptions])
    (by norm_num [backoffExampleOptions]) (by norm_num [backoffExampleOptions])

/-! ## Cache (class `IntelligentCache<T>`)

The JS `Map<string, CacheEntry<T>>` is modelled as an insertion-ordered
association list; all cache operations keep its keys unique, as a `Map`'s
are.  `this.lru` keeps the least-recently-used key at the head and the
most-recently-used at the tail, exactly as in the source. -/

/-- `CacheEntry<T>` of the cache module. -/
structure CacheEntry (V : Type) where
  data : V
  timestamp : Int
  ttl : Int
  checksum : Option String := none
deriving Repr, DecidableEq

/-- `CacheStats`. -/
structure CacheStats where
  hits : Nat
  misses : Nat
  size : Nat
  evictions : Nat
deriving Repr, DecidableEq

/-- The mutable fields of `IntelligentCache` (the cleanup timer only
re-runs `invalidate` on expired entries and is not part of any claim). -/
structure CacheState (V : Type) where
  cache : List (String × CacheEntry V)
  lru : List String
  stats : CacheStats
deriving Repr, DecidableEq

/-- A freshly constructed cache. -/
def initCache {V : Type} : CacheState V :=
  { cache := [], lru := [], stats := { hits := 0, misses := 0, size := 0, evictions := 0 } }

/-- `Map.prototype.get`. -/
def mapGet {V : Type} : List (String × CacheEntry V) → String → Option (CacheEntry V)
  | [], _ => none
  | (k', e) :: rest, k => if k' = k then some e else mapGet rest k

/-- `Map.prototype.set`: update in place when the key is present
(keeping its insertion position), append otherwise. -/
def mapSet {V : Type} : List (String × CacheEntry V) → String → CacheEntry V →
    List (String × CacheEntry V)
  | [], k, e => [(k, e)]
  | (k', e') :: rest, k, e =>
    if k' = k then (k, e) :: rest else (k', e') :: mapSet rest k e

/-- `Map.prototype.delete` (the removal part; presence is tested with
`mapGet`). -/
def mapDelete {V : Type} : List (String × CacheEntry V) → String →
    List (String × CacheEntry V)
  | [], _ => []
  | (k', e') :: rest, k => if k' = k then rest else (k', e') :: mapDelete rest k

/-- `IntelligentCache.isExpired`: `entry.ttl > 0 && now - entry.timestamp > entry.ttl`. -/
def isExpired {V : Type} (now : Int) (e : CacheEntry V) : Bool :=
  decide (0 < e.ttl ∧ e.ttl < now - e.timestamp)

/-- `IntelligentCache.moveToFrontOfLru`: filter the key out, push it at
the tail (most recently used). -/
def moveToFrontOfLru (k : String) (lru : List String) : List String :=
  (lru.filter (fun k2 => k2 ≠ k)) ++ [k]

/-- `IntelligentCache.invalidate`: delete from the map; when the key was
present, filter it out of the LRU list and decrement `stats.size`. -/
def invalidate {V : Type} (k : String) (s : CacheState V) : Bool × CacheState V :=
  if (mapGet s.cache k).isSome then
    (true,
      { cache := mapDelete s.cache k,
        lru := s.lru.filter (fun k2 => k2 ≠ k),
        stats := { s.stats with size := s.stats.size - 1 } })
  else
    (false, s)

/-- One iteration of `IntelligentCache.evictLRU` (always called with
`count = 1`): `this.lru.shift()` unconditionally, then
`if (keyToEvict) { ... }`.  The guard uses JavaScript truthiness, so the
empty-string key is treated like `undefined`: it is dropped from the LRU
list but neither deleted from the map nor counted in `size`/`evictions`. -/
def evictLRUOnce {V : Type} (s : CacheState V) : CacheState V :=
  match s.lru with
  | [] => s
  | keyToEvict :: rest =>
    if keyToEvict = "" then { s with lru := rest }
    else
      { cache := mapDelete s.cache keyToEvict,
        lru := rest,
        stats := { s.stats with size := s.stats.size - 1,
                                evictions := s.stats.evictions + 1 } }

/-- `IntelligentCache.ensureCapacity(1)`:
`while (size + 1 > maxSize) evictLRU(1)`, with explicit fuel; `none`
means the loop did not exit within `fuel` iterations. -/
def ensureCapacityFuel {V : Type} (maxSize : Nat) : Nat → CacheState V → Option (CacheState V)
  | 0, s => if s.stats.size + 1 > maxSize then none else some s
  | fuel + 1, s =>
    if s.stats.size + 1 > maxSize then ensureCapacityFuel maxSize fuel (evictLRUOnce s)
    else some s

/-- `IntelligentCache.set(key, data, ttl?, metadata?)`.  A terminating
run of the capacity loop pops one LRU key per iteration, so
`s.lru.length + 1` units of fuel are enough for every terminating run;
`none` therefore means the source's `while` loop runs forever. -/
def set {V : Type} (maxSize : Nat) (now : Int) (k : String) (v : V) (ttl : Int)
    (checksum : Option String) (s : CacheState V) : Option (CacheState V) :=
  let newEntry : CacheEntry V := { data := v, timestamp := now, ttl := ttl, checksum := checksum }
  if (mapGet s.cache k).isSome then
    some { s with cache := mapSet s.cache k newEntry, lru := moveToFrontOfLru k s.lru }
  else
    match ensureCapacityFuel maxSize (s.lru.length + 1) s with
    | none => none
    | some s1 =>
      some { cache := mapSet s1.cache k newEntry,
             lru := s1.lru ++ [k],
             stats := { s1.stats with size := s1.stats.size + 1 } }

/-- `IntelligentCache.get(key)`: miss on unknown key; lazily invalidate
and miss on an expired entry; otherwise hit and mark most recently
used. -/
def get {V : Type} (now : Int) (k : String) (s : CacheState V) :
    Option (CacheEntry V) × CacheState V :=
  match mapGet s.cache k with
  | none => (none, { s with stats := { s.stats with misses := s.stats.misses + 1 } })
  | some e =>
    if isExpired now e then
      let s1 := (invalidate k s).2
      (none, { s1 with stats := { s1.stats with misses := s1.stats.misses + 1 } })
    else
      (some e,
        { s with stats := { s.stats with hits := s.stats.hits + 1 },
                 lru := moveToFrontOfLru k s.lru })

/-- One public cache operation, for reasoning about operation
sequences. -/
inductive CacheOp (V : Type)
  | setOp (now : Int) (k : String) (v : V) (ttl : Int)
  | getOp (now : Int) (k : String)
  | invalidateOp (k : String)

/-- Run one operation (`none` when `set`'s eviction loop hangs). -/
def runOp {V : Type} (maxSize : Nat) : CacheOp V → CacheState V → Option (CacheState V)
  | .setOp now k v ttl, s => set maxSize now k v ttl none s
  | .getOp now k, s => some (get now k s).2
  | .invalidateOp k, s => some (invalidate k s).2

/-- Run a sequence of operations. -/
def runOps {V : Type} (maxSize : Nat) : List (CacheOp V) → CacheState V → Option (CacheState V)
  | [], s => some s
  | op :: rest, s =>
    match runOp maxSize op s with
    | none => none
    | some s' => runOps maxSize rest s'

theorem mapGet_isSome_iff_mem {V : Type} (l : List (String × CacheEntry V)) (k : String) :
    (mapGet l k).isSome ↔ k ∈ l.map Prod.fst := by
  induction l with
  | nil => simp [mapGet]
  | cons p rest ih =>
    obtain ⟨k', e⟩ := p
    by_cases h : k' = k
    · subst h; simp [mapGet]
    · simp [mapGet, h, ih, Ne.symm h]

theorem mapGet_eq_none_iff_not_mem {V : Type} (l : List (String × CacheEntry V)) (k : String) :
    mapGet l k = none ↔ k ∉ l.map Prod.fst := by
  rw [← mapGet_isSome_iff_mem, Option.not_isSome_iff_eq_none]

theorem mapSet_keys_present {V : Type} (l : List (String × CacheEntry V)) (k : String)
    (e : CacheEntry V) (h : (mapGet l k).isSome) :
    (mapSet l k e).map Prod.fst = l.map Prod.fst := by
  induction l with
  | nil => simp [mapGet] at h
  | cons p rest ih =>
    obtain ⟨k', e'⟩ := p
    by_cases hk : k' = k
    · subst hk; simp [mapSet]
    · simp only [mapGet, if_neg hk] at h
      simp [mapSet, hk, ih h]

theorem mapSet_keys_absent {V : Type} (l : List (String × CacheEntry V)) (k : String)
    (e : CacheEntry V) (h : mapGet l k = none) :
    (mapSet l k e).map Prod.fst = l.map Prod.fst ++ [k] := by
  induction l with
  | nil => simp [mapSet]
  | cons p rest ih =>
    obtain ⟨k', e'⟩ := p
    by_cases hk : k' = k
    · subst hk; simp [mapGet] at h
    · simp only [mapGet, if_neg hk] at h
      simp [mapSet, hk, ih h]

theorem mapDelete_keys {V : Type} (l : List (String × CacheEntry V)) (k : String) :
    (mapDelete l k).map Prod.fst = (l.map Prod.fst).erase k := by
  induction l with
  | nil => simp [mapDelete]
  | cons p rest ih =>
    obtain ⟨k', e'⟩ := p
    by_cases hk : k' = k
    · subst hk; simp [mapDelete, List.erase_cons]
    · simp [mapDelete, List.erase_cons, hk, ih]

theorem mapGet_mapSet_self {V : Type} (l : List (String × CacheEntry V)) (k : String)
    (e : CacheEntry V) : mapGet (mapSet l k e) k = some e := by
  induction l with
  | nil => simp [mapSet, mapGet]
  | cons p rest ih =>
    obtain ⟨k', e'⟩ := p
    by_cases hk : k' = k
    · subst hk; simp [mapSet, mapGet]
    · simp [mapSet, mapGet, hk, ih]

theorem mapGet_mapSet_ne {V : Type} (l : List (String × CacheEntry V)) (k k2 : String)
    (e : CacheEntry V) (h : k2 ≠ k) : mapGet (mapSet l k e) k2 = mapGet l k2 := by
  induction l with
  | nil => simp [mapSet, mapGet, Ne.symm h]
  | cons p rest ih =>
    obtain ⟨k', e'⟩ := p
    by_cases hk : k' = k
    · subst hk
      simp [mapSet, mapGet, Ne.symm h]
    · simp only [mapSet, if_neg hk, mapGet]
      by_cases h2 : k' = k2 <;> simp [h2, ih]

theorem mapGet_mapDelete_self {V : Type} (l : List (String × CacheEntry V)) (k : String)
    (hnd : (l.map Prod.fst).Nodup) : mapGet (mapDelete l k) k = none := by
  induction l with
  | nil => simp [mapDelete, mapGet]
  | cons p rest ih =>
    obtain ⟨k', e'⟩ := p
    simp only [List.map_cons, List.nodup_cons] at hnd
    by_cases hk : k' = k
    · subst hk
      simp only [mapDelete, if_pos rfl]
      rw [mapGet_eq_none_iff_not_mem]
      exact hnd.1
    · simp [mapDelete, mapGet, hk, ih hnd.2]

theorem mapGet_mapDelete_ne {V : Type} (l : List (String × CacheEntry V)) (k k2 : String)
    (h : k2 ≠ k) : mapGet (mapDelete l k) k2 = mapGet l k2 := by
  induction l with
  | nil => simp [mapDelete]
  | cons p rest ih =>
    obtain ⟨k', e'⟩ := p
    by_cases hk : k' = k
    · subst hk
      simp [mapDelete, mapGet, Ne.symm h]
    · simp only [mapDelete, if_neg hk, mapGet]
      by_cases h2 : k' = k2 <;> simp [h2, ih]

/-- The state invariant of `IntelligentCache` claimed by the spec
(`size == live entries == LRU length ≤ maxSize`), together with the
structural facts that make it inductive: key uniqueness, agreement of the
map's key set with the LRU list, and — because of the JS-truthiness guard
in `evictLRU` — the absence of the empty-string key. -/
structure CacheInv {V : Type} (maxSize : Nat) (s : CacheState V) : Prop where
  size_entries : s.stats.size = s.cache.length
  size_lru : s.stats.size = s.lru.length
  size_le : s.stats.size ≤ maxSize
  nodup_keys : (s.cache.map Prod.fst).Nodup
  nodup_lru : s.lru.Nodup
  mem_iff : ∀ k, k ∈ s.cache.map Prod.fst ↔ k ∈ s.lru
  ne_nil : ∀ k ∈ s.lru, k ≠ ""

theorem filter_ne_eq_erase (l : List String) (k : String) (h : l.Nodup) :
    l.filter (fun k2 => k2 ≠ k) = l.erase k := by
  rw [List.Nodup.erase_eq_filter h]
  apply List.filter_congr
  intro x _
  by_cases hx : x = k <;> simp [hx]

theorem moveToFrontOfLru_eq (l : List String) (k : String) (h : l.Nodup) :
    moveToFrontOfLru k l = l.erase k ++ [k] := by
  rw [moveToFrontOfLru, filter_ne_eq_erase l k h]

theorem moveToFrontOfLru_length (l : List String) (k : String) (h : l.Nodup) (hk : k ∈ l) :
    (moveToFrontOfLru k l).length = l.length := by
  rw [moveToFrontOfLru_eq l k h]
  have h1 := List.length_erase_of_mem hk
  have h2 : 1 ≤ l.length := List.length_pos.mpr (List.ne_nil_of_mem hk)
  simp only [List.length_append, List.length_cons, List.length_nil, h1]
  omega

theorem moveToFrontOfLru_nodup (l : List String) (k : String) (h : l.Nodup) :
    (moveToFrontOfLru k l).Nodup := by
  rw [moveToFrontOfLru_eq l k h, List.nodup_append]
  refine ⟨h.erase k, List.nodup_singleton k, ?_⟩
  intro x hx hx1
  simp only [List.mem_singleton] at hx1
  subst hx1
  exact ((h.mem_erase_iff).mp hx).1 rfl

theorem moveToFrontOfLru_mem (l : List String) (k : String) (h : l.Nodup) (hk : k ∈ l)
    (x : String) : x ∈ moveToFrontOfLru k l ↔ x ∈ l := by
  rw [moveToFrontOfLru_eq l k h]
  simp only [List.mem_append, List.mem_singleton]
  constructor
  · rintro (hx | rfl)
    · exact List.mem_of_mem_erase hx
    · exact hk
  · intro hx
    by_cases hxk : x = k
    · exact Or.inr hxk
    · exact Or.inl ((List.mem_erase_of_ne hxk).mpr hx)

theorem cacheInv_initCache {V : Type} (m : Nat) : CacheInv m (initCache (V := V)) := by
  constructor <;> simp [initCache]

theorem cacheInv_invalidate {V : Type} {m : Nat} {s : CacheState V} (h : CacheInv m s)
    (k : String) : CacheInv m (invalidate k s).2 := by
  by_cases hp : (mapGet s.cache k).isSome
  · have hkk : k ∈ s.cache.map Prod.fst := (mapGet_isSome_iff_mem _ _).mp hp
    have hkl : k ∈ s.lru := (h.mem_iff k).mp hkk
    have hlen : 1 ≤ s.lru.length := List.length_pos.mpr (List.ne_nil_of_mem hkl)
    simp only [invalidate, if_pos hp]
    constructor
    · show s.stats.size - 1 = (mapDelete s.cache k).length
      have : (mapDelete s.cache k).length = s.cache.length - 1 := by
        have h1 : ((mapDelete s.cache k).map Prod.fst).length =
            ((s.cache.map Prod.fst).erase k).length := by rw [mapDelete_keys]
        rw [List.length_map, List.length_erase_of_mem hkk, List.length_map] at h1
        exact h1
      rw [this, ← h.size_entries]
    · show s.stats.size - 1 = (s.lru.filter (fun k2 => k2 ≠ k)).length
      rw [filter_ne_eq_erase _ _ h.nodup_lru, List.length_erase_of_mem hkl, ← h.size_lru]
    · show s.stats.size - 1 ≤ m
      have := h.size_le
      omega
    · show ((mapDelete s.cache k).map Prod.fst).Nodup
      rw [mapDelete_keys]
      exact h.nodup_keys.erase k
    · show (s.lru.filter (fun k2 => k2 ≠ k)).Nodup
      rw [filter_ne_eq_erase _ _ h.nodup_lru]
      exact h.nodup_lru.erase k
    · intro x
      show x ∈ (mapDelete s.cache k).map Prod.fst ↔ x ∈ s.lru.filter (fun k2 => k2 ≠ k)
      rw [mapDelete_keys, filter_ne_eq_erase _ _ h.nodup_lru,
        h.nodup_keys.mem_erase_iff, h.nodup_lru.mem_erase_iff, h.mem_iff]
    · intro x hx
      show x ≠ ""
      simp only [List.mem_filter] at hx
      exact h.ne_nil x hx.1
  · simp only [invalidate, if_neg hp]
    exact h

theorem cacheInv_stats {V : Type} {m : Nat} {s : CacheState V} (h : CacheInv m s)
    (st : CacheStats) (hsz : st.size = s.stats.size) :
    CacheInv m { s with stats := st } := by
  constructor
  · show st.size = s.cache.length
    rw [hsz]; exact h.size_entries
  · show st.size = s.lru.length
    rw [hsz]; exact h.size_lru
  · show st.size ≤ m
    rw [hsz]; exact h.size_le
  · exact h.nodup_keys
  · exact h.nodup_lru
  · exact h.mem_iff
  · exact h.ne_nil

theorem cacheInv_get {V : Type} {m : Nat} {s : CacheState V} (h : CacheInv m s)
    (now : Int) (k : String) : CacheInv m (get now k s).2 := by
  match hg : mapGet s.cache k with
  | none =>
    simp only [get, hg]
    exact cacheInv_stats h _ rfl
  | some e =>
    simp only [get, hg]
    by_cases hexp : isExpired now e
    · simp only [hexp, if_pos]
      exact cacheInv_stats (cacheInv_invalidate h k) _ rfl
    · simp only [hexp]
      have hkk : k ∈ s.cache.map Prod.fst :=
        (mapGet_isSome_iff_mem _ _).mp (by rw [hg]; rfl)
      have hkl : k ∈ s.lru := (h.mem_iff k).mp hkk
      constructor
      · exact h.size_entries
      · show s.stats.size = (moveToFrontOfLru k s.lru).length
        rw [moveToFrontOfLru_length _ _ h.nodup_lru hkl]
        exact h.size_lru
      · exact h.size_le
      · exact h.nodup_keys
      · exact moveToFrontOfLru_nodup _ _ h.nodup_lru
      · intro x
        show x ∈ s.cache.map Prod.fst ↔ x ∈ moveToFrontOfLru k s.lru
        rw [moveToFrontOfLru_mem _ _ h.nodup_lru hkl]
        exact h.mem_iff x
      · intro x hx
        show x ≠ ""
        have : x ∈ s.lru := (moveToFrontOfLru_mem _ _ h.nodup_lru hkl x).mp hx
        exact h.ne_nil x this

theorem ensureCapacityFuel_of_fits {V : Type} {m : Nat} {s : CacheState V}
    (hfits : s.stats.size + 1 ≤ m) (fuel : Nat) :
    ensureCapacityFuel m fuel s = some s := by
  have hc : ¬ s.stats.size + 1 > m := by omega
  cases fuel <;> simp [ensureCapacityFuel, hc]

/-- Evicting once from an invariant-satisfying nonempty cache removes
exactly the LRU key (which is nonempty, hence truthy) and restores the
invariant with the size decreased by one. -/
theorem cacheInv_evictLRUOnce {V : Type} {m : Nat} {s : CacheState V} (h : CacheInv m s)
    (k0 : String) (rest : List String) (hlru : s.lru = k0 :: rest) :
    evictLRUOnce s =
      { cache := mapDelete s.cache k0, lru := rest,
        stats := { s.stats with size := s.stats.size - 1,
                                evictions := s.stats.evictions + 1 } } ∧
    CacheInv m
      { cache := mapDelete s.cache k0, lru := rest,
        stats := { s.stats with size := s.stats.size - 1,
                                evictions := s.stats.evictions + 1 } } := by
  have hk0l : k0 ∈ s.lru := by rw [hlru]; exact List.mem_cons_self k0 rest
  have hk0 : k0 ≠ "" := h.ne_nil k0 hk0l
  have hk0k : k0 ∈ s.cache.map Prod.fst := (h.mem_iff k0).mpr hk0l
  have hnodup := h.nodup_lru
  rw [hlru] at hnodup
  have hk0rest : k0 ∉ rest := (List.nodup_cons.mp hnodup).1
  constructor
  · rw [evictLRUOnce, hlru]
    simp [hk0]
  · constructor
    · show s.stats.size - 1 = (mapDelete s.cache k0).length
      have h1 : ((mapDelete s.cache k0).map Prod.fst).length =
          ((s.cache.map Prod.fst).erase k0).length := by rw [mapDelete_keys]
      rw [List.length_map, List.length_erase_of_mem hk0k, List.length_map] at h1
      rw [h1, ← h.size_entries]
    · show s.stats.size - 1 = rest.length
      have := h.size_lru
      rw [hlru] at this
      simp only [List.length_cons] at this
      omega
    · show s.stats.size - 1 ≤ m
      have := h.size_le
      omega
    · show ((mapDelete s.cache k0).map Prod.fst).Nodup
      rw [mapDelete_keys]
      exact h.nodup_keys.erase k0
    · exact (List.nodup_cons.mp hnodup).2
    · intro x
      show x ∈ (mapDelete s.cache k0).map Prod.fst ↔ x ∈ rest
      rw [mapDelete_keys, h.nodup_keys.mem_erase_iff, h.mem_iff, hlru]
      simp only [List.mem_cons]
      constructor
      · rintro ⟨hne, rfl | hx⟩
        · exact absurd rfl hne
        · exact hx
      · intro hx
        exact ⟨fun heq => hk0rest (heq ▸ hx), Or.inr hx⟩
    · intro x hx
      show x ≠ ""
      exact h.ne_nil x (by rw [hlru]; exact List.mem_cons_of_mem k0 hx)

/-- `ensureCapacity(1)` on an invariant-satisfying cache with
`maxSize ≥ 1` terminates within the fuel `set` allots, yielding an
invariant-satisfying state with room for one more entry whose key set
is a subset of the original's. -/
theorem ensureCapacityFuel_spec {V : Type} {m : Nat} {s : CacheState V} (h : CacheInv m s)
    (hm : 1 ≤ m) :
    ∃ s1, ensureCapacityFuel m (s.lru.length + 1) s = some s1 ∧ CacheInv m s1 ∧
      s1.stats.size + 1 ≤ m ∧
      s1.stats.hits = s.stats.hits ∧ s1.stats.misses = s.stats.misses ∧
      (∀ k2, k2 ∈ s1.cache.map Prod.fst → k2 ∈ s.cache.map Prod.fst) := by
  by_cases hfits : s.stats.size + 1 ≤ m
  · exact ⟨s, ensureCapacityFuel_of_fits hfits _, h, hfits, rfl, rfl, fun _ h => h⟩
  · have hfull : s.stats.size = m := by
      have := h.size_le
      omega
    have hlen : s.lru.length = m := by rw [← h.size_lru, hfull]
    obtain ⟨k0, rest, hlru⟩ : ∃ k0 rest, s.lru = k0 :: rest := by
      cases hl : s.lru with
      | nil => rw [hl] at hlen; simp at hlen; omega
      | cons a l => exact ⟨a, l, rfl⟩
    obtain ⟨hev, hinv⟩ := cacheInv_evictLRUOnce h k0 rest hlru
    set s2 : CacheState V :=
      { cache := mapDelete s.cache k0, lru := rest,
        stats := { s.stats with size := s.stats.size - 1,
                                evictions := s.stats.evictions + 1 } } with hs2
    have hcond : s.stats.size + 1 > m := by omega
    have hstep : ensureCapacityFuel m (s.lru.length + 1) s =
        ensureCapacityFuel m s.lru.length (evictLRUOnce s) := by
      simp [ensureCapacityFuel, hcond]
    have hfits2 : s2.stats.size + 1 ≤ m := by
      show s.stats.size - 1 + 1 ≤ m
      omega
    refine ⟨s2, ?_, hinv, hfits2, rfl, rfl, ?_⟩
    · rw [hstep, hev, ensureCapacityFuel_of_fits hfits2]
    · intro k2 hk2
      show k2 ∈ s.cache.map Prod.fst
      have : k2 ∈ (s.cache.map Prod.fst).erase k0 := by
        rw [← mapDelete_keys]
        exact hk2
      exact List.mem_of_mem_erase this

/-- `set` with a nonempty key on an invariant-satisfying cache with
`maxSize ≥ 1` terminates and preserves the invariant. -/
theorem cacheInv_set {V : Type} {m : Nat} {s : CacheState V} (h : CacheInv m s)
    (hm : 1 ≤ m) (now : Int) (k : String) (v : V) (ttl : Int) (cs : Option String)
    (hk : k ≠ "") :
    ∃ s', set m now k v ttl cs s = some s' ∧ CacheInv m s' := by
  by_cases hp : (mapGet s.cache k).isSome
  · have hkk : k ∈ s.cache.map Prod.fst := (mapGet_isSome_iff_mem _ _).mp hp
    have hkl : k ∈ s.lru := (h.mem_iff k).mp hkk
    have heq : set m now k v ttl cs s = some
        { s with cache := mapSet s.cache k { data := v, timestamp := now, ttl := ttl, checksum := cs },
                 lru := moveToFrontOfLru k s.lru } := by
      simp [set, hp]
    refine ⟨_, heq, ?_⟩
    constructor
    · show s.stats.size = (mapSet s.cache k { data := v, timestamp := now, ttl := ttl, checksum := cs }).length
      have : (mapSet s.cache k { data := v, timestamp := now, ttl := ttl, checksum := cs }).length = s.cache.length := by
        rw [← List.length_map, mapSet_keys_present _ _ _ hp, List.length_map]
      rw [this]; exact h.size_entries
    · show s.stats.size = (moveToFrontOfLru k s.lru).length
      rw [moveToFrontOfLru_length _ _ h.nodup_lru hkl]; exact h.size_lru
    · exact h.size_le
    · show ((mapSet s.cache k { data := v, timestamp := now, ttl := ttl, checksum := cs }).map Prod.fst).Nodup
      rw [mapSet_keys_present _ _ _ hp]; exact h.nodup_keys
    · exact moveToFrontOfLru_nodup _ _ h.nodup_lru
    · intro x
      show x ∈ (mapSet s.cache k { data := v, timestamp := now, ttl := ttl, checksum := cs }).map Prod.fst ↔ x ∈ moveToFrontOfLru k s.lru
      rw [mapSet_keys_present _ _ _ hp, moveToFrontOfLru_mem _ _ h.nodup_lru hkl]
      exact h.mem_iff x
    · intro x hx
      show x ≠ ""
      exact h.ne_nil x ((moveToFrontOfLru_mem _ _ h.nodup_lru hkl x).mp hx)
  · obtain ⟨s1, hens, hinv1, hfits1, _, _, hsub⟩ := ensureCapacityFuel_spec h hm
    have hp' : mapGet s.cache k = none := Option.not_isSome_iff_eq_none.mp hp
    have hk1 : k ∉ s1.cache.map Prod.fst := by
      intro hmem
      exact ((mapGet_eq_none_iff_not_mem _ _).mp hp') (hsub k hmem)
    have hg1 : mapGet s1.cache k = none := (mapGet_eq_none_iff_not_mem _ _).mpr hk1
    have hkl1 : k ∉ s1.lru := fun hx => hk1 ((hinv1.mem_iff k).mpr hx)
    have heq : set m now k v ttl cs s = some
        { cache := mapSet s1.cache k { data := v, timestamp := now, ttl := ttl, checksum := cs },
          lru := s1.lru ++ [k],
          stats := { s1.stats with size := s1.stats.size + 1 } } := by
      simp [set, hp', hens]
    refine ⟨_, heq, ?_⟩
    constructor
    · show s1.stats.size + 1 = (mapSet s1.cache k { data := v, timestamp := now, ttl := ttl, checksum := cs }).length
      have : (mapSet s1.cache k { data := v, timestamp := now, ttl := ttl, checksum := cs }).length = s1.cache.length + 1 := by
        rw [← List.length_map, mapSet_keys_absent _ _ _ hg1]
        simp [List.length_append]
      rw [this, ← hinv1.size_entries]
    · show s1.stats.size + 1 = (s1.lru ++ [k]).length
      simp only [List.length_append, List.length_cons, List.length_nil]
      rw [← hinv1.size_lru]
    · show s1.stats.size + 1 ≤ m
      exact hfits1
    · show ((mapSet s1.cache k { data := v, timestamp := now, ttl := ttl, checksum := cs }).map Prod.fst).Nodup
      rw [mapSet_keys_absent _ _ _ hg1, List.nodup_append]
      refine ⟨hinv1.nodup_keys, List.nodup_singleton k, ?_⟩
      intro x hx hx1
      simp only [List.mem_singleton] at hx1
      subst hx1
      exact hk1 hx
    · show (s1.lru ++ [k]).Nodup
      rw [List.nodup_append]
      refine ⟨hinv1.nodup_lru, List.nodup_singleton k, ?_⟩
      intro x hx hx1
      simp only [List.mem_singleton] at hx1
      subst hx1
      exact hkl1 hx
    · intro x
      show x ∈ (mapSet s1.cache k { data := v, timestamp := now, ttl := ttl, checksum := cs }).map Prod.fst ↔ x ∈ s1.lru ++ [k]
      rw [mapSet_keys_absent _ _ _ hg1]
      simp only [List.mem_append, List.mem_singleton]
      rw [hinv1.mem_iff]
    · intro x hx
      show x ≠ ""
      simp only [List.mem_append, List.mem_singleton] at hx
      rcases hx with hx | rfl
      · exact hinv1.ne_nil x hx
      · exact hk

/-- The key a cache operation touches. -/
def cacheOpKey {V : Type} : CacheOp V → String
  | .setOp _ k _ _ => k
  | .getOp _ k => k
  | .invalidateOp k => k

/-- Every sequence of `set`/`get`/`invalidate` operations with nonempty
keys on a cache with `maxSize ≥ 1` runs to completion and preserves the
cache invariant (in particular `size == entries == LRU length ≤ maxSize`). -/
theorem runOps_cacheInv {V : Type} (m : Nat) (hm : 1 ≤ m) :
    ∀ (ops : List (CacheOp V)) (s : CacheState V), CacheInv m s →
      (∀ op ∈ ops, cacheOpKey op ≠ "") →
      ∃ s', runOps m ops s = some s' ∧ CacheInv m s' := by
  intro ops
  induction ops with
  | nil => intro s hs _; exact ⟨s, rfl, hs⟩
  | cons op rest ih =>
    intro s hs hkeys
    have hopk : cacheOpKey op ≠ "" := hkeys op (List.mem_cons_self op rest)
    have hrest : ∀ op2 ∈ rest, cacheOpKey op2 ≠ "" :=
      fun op2 h2 => hkeys op2 (List.mem_cons_of_mem op h2)
    match op with
    | .setOp now k v ttl =>
      obtain ⟨s1, hset, hinv1⟩ := cacheInv_set hs hm now k v ttl none hopk
      obtain ⟨s', hrun, hinv'⟩ := ih s1 hinv1 hrest
      exact ⟨s', by simp only [runOps, runOp, hset, hrun], hinv'⟩
    | .getOp now k =>
      obtain ⟨s', hrun, hinv'⟩ := ih (get now k s).2 (cacheInv_get hs now k) hrest
      exact ⟨s', by simp only [runOps, runOp, hrun], hinv'⟩
    | .invalidateOp k =>
      obtain ⟨s', hrun, hinv'⟩ := ih (invalidate k s).2 (cacheInv_invalidate hs k) hrest
      exact ⟨s', by simp only [runOps, runOp, hrun], hinv'⟩

/-- On an invariant-satisfying full cache, `set` of a fresh nonempty key
evicts exactly the least-recently-used key: one eviction is counted, the
LRU key leaves the map, the new key is stored, every other entry is
untouched, and the size stays at `maxSize`. -/
theorem set_at_capacity_evicts_exactly_lru {V : Type} {m : Nat} {s : CacheState V}
    (h : CacheInv m s) (hm : 1 ≤ m) (hfull : s.stats.size = m)
    (now : Int) (k : String) (v : V) (ttl : Int) (cs : Option String)
    (hnew : mapGet s.cache k = none) :
    ∃ k0 rest s', s.lru = k0 :: rest ∧
      set m now k v ttl cs s = some s' ∧
      s'.stats.evictions = s.stats.evictions + 1 ∧
      s'.stats.size = m ∧
      mapGet s'.cache k0 = none ∧
      mapGet s'.cache k = some { data := v, timestamp := now, ttl := ttl, checksum := cs } ∧
      (∀ k2, k2 ≠ k0 → k2 ≠ k → mapGet s'.cache k2 = mapGet s.cache k2) := by
  have hlen : s.lru.length = m := by rw [← h.size_lru, hfull]
  obtain ⟨k0, rest, hlru⟩ : ∃ k0 rest, s.lru = k0 :: rest := by
    cases hl : s.lru with
    | nil => rw [hl] at hlen; simp at hlen; omega
    | cons a l => exact ⟨a, l, rfl⟩
  obtain ⟨hev, hinv2⟩ := cacheInv_evictLRUOnce h k0 rest hlru
  set s2 : CacheState V :=
    { cache := mapDelete s.cache k0, lru := rest,
      stats := { s.stats with size := s.stats.size - 1,
                              evictions := s.stats.evictions + 1 } } with hs2
  have hcond : s.stats.size + 1 > m := by omega
  have hfits2 : s2.stats.size + 1 ≤ m := by
    show s.stats.size - 1 + 1 ≤ m
    omega
  have hens : ensureCapacityFuel m (s.lru.length + 1) s = some s2 := by
    have hstep : ensureCapacityFuel m (s.lru.length + 1) s =
        ensureCapacityFuel m s.lru.length (evictLRUOnce s) := by
      simp [ensureCapacityFuel, hcond]
    rw [hstep, hev, ensureCapacityFuel_of_fits hfits2]
  have hp : ¬ (mapGet s.cache k).isSome := by rw [hnew]; simp
  have hk0mem : k0 ∈ s.cache.map Prod.fst := (h.mem_iff k0).mpr (by
    rw [hlru]; exact List.mem_cons_self k0 rest)
  have hk0k : k0 ≠ k := by
    intro heq
    exact ((mapGet_eq_none_iff_not_mem _ _).mp hnew) (heq ▸ hk0mem)
  have heq : set m now k v ttl cs s = some
      { cache := mapSet s2.cache k { data := v, timestamp := now, ttl := ttl, checksum := cs },
        lru := s2.lru ++ [k],
        stats := { s2.stats with size := s2.stats.size + 1 } } := by
    simp [set, hnew, hens]
  refine ⟨k0, rest, _, hlru, heq, rfl, ?_, ?_, ?_, ?_⟩
  · show s.stats.size - 1 + 1 = m
    omega
  · show mapGet (mapSet s2.cache k _) k0 = none
    rw [mapGet_mapSet_ne _ _ _ _ hk0k]
    show mapGet (mapDelete s.cache k0) k0 = none
    exact mapGet_mapDelete_self _ _ h.nodup_keys
  · exact mapGet_mapSet_self _ _ _
  · intro k2 hk20 hk2k
    show mapGet (mapSet s2.cache k _) k2 = mapGet s.cache k2
    rw [mapGet_mapSet_ne _ _ _ _ hk2k]
    show mapGet (mapDelete s.cache k0) k2 = mapGet s.cache k2
    exact mapGet_mapDelete_ne _ _ _ hk20

/-- **C4.** The cache's claimed invariant
`size == live entries == LRU length` fails on the code: with
`maxSize = 2`, inserting the empty-string key, then `"a"`, then `"b"`
ends with `size = 2` and two live map entries but an LRU list of length
1 — the JS-truthiness guard `if (keyToEvict)` in `evictLRU` skips
deleting the shifted empty-string key, so `""` stays in the map forever
while `"a"`, which was not the least recently used, is evicted
instead. -/
theorem cache_size_lru_invariant_violation_at_empty_key :
    ∃ s : CacheState Nat,
      runOps 2 [CacheOp.setOp 0 "" 1 0, CacheOp.setOp 1 "a" 2 0, CacheOp.setOp 2 "b" 3 0]
          initCache = some s ∧
      s.stats.size = 2 ∧ s.cache.length = 2 ∧ s.lru.length = 1 ∧
      s.stats.evictions = 1 ∧ (mapGet s.cache "").isSome = true ∧
      mapGet s.cache "a" = none := by
  refine ⟨_, rfl, ?_, ?_, ?_, ?_, ?_, ?_⟩ <;> decide

/-- **C5.** `get` and per-entry TTL: (i) a stored entry with positive
TTL read at a time `now` with `now - writtenAt > ttl` yields absent,
one more miss, and the entry's removal; (ii) read within the TTL it
yields the value, one more hit, and the key moved to the
most-recently-used tail; (iii) an entry with `ttl = 0` never expires;
(iv) concretely, `set(k, 37, ttl := 50)` at time 0 read at 60 is
absent+miss and read at 10 is the value+hit. -/
theorem cache_get_ttl_expiry_semantics :
    (∀ (V : Type) (s : CacheState V) (k : String) (e : CacheEntry V) (now : Int),
      mapGet s.cache k = some e → (s.cache.map Prod.fst).Nodup →
      0 < e.ttl → e.ttl < now - e.timestamp →
      (get now k s).1 = none ∧
      (get now k s).2.stats.misses = s.stats.misses + 1 ∧
      mapGet (get now k s).2.cache k = none)
  ∧ (∀ (V : Type) (s : CacheState V) (k : String) (e : CacheEntry V) (now : Int),
      mapGet s.cache k = some e → 0 < e.ttl → now - e.timestamp ≤ e.ttl →
      (get now k s).1 = some e ∧
      (get now k s).2.stats.hits = s.stats.hits + 1 ∧
      (get now k s).2.lru = moveToFrontOfLru k s.lru ∧
      (get now k s).2.lru.getLast? = some k)
  ∧ (∀ (V : Type) (s : CacheState V) (k : String) (e : CacheEntry V) (now : Int),
      mapGet s.cache k = some e → e.ttl = 0 →
      (get now k s).1 = some e)
  ∧ (∃ s50 : CacheState Nat,
      set 100 0 "k" 37 50 none initCache = some s50 ∧
      (get 60 "k" s50).1 = none ∧ (get 60 "k" s50).2.stats.misses = 1 ∧
      (get 10 "k" s50).1 =
        some { data := 37, timestamp := 0, ttl := 50, checksum := none } ∧
      (get 10 "k" s50).2.stats.hits = 1) := by
  refine ⟨?_, ?_, ?_, ?_⟩
  · intro V s k e now hg hnd h1 h2
    have hexp : isExpired now e = true := by
      simp only [isExpired, decide_eq_true_eq]
      exact ⟨h1, h2⟩
    have hp : (mapGet s.cache k).isSome := by rw [hg]; rfl
    refine ⟨?_, ?_, ?_⟩
    · simp [get, hg, hexp]
    · simp [get, hg, hexp, invalidate, hp]
    · simp only [get, hg, hexp, if_pos, invalidate, hp]
      exact mapGet_mapDelete_self _ _ hnd
  · intro V s k e now hg h1 h2
    have hexp : isExpired now e = false := by
      simp only [isExpired, decide_eq_false_iff_not]
      rintro ⟨_, hlt⟩
      omega
    refine ⟨?_, ?_, ?_, ?_⟩
    · simp [get, hg, hexp]
    · simp [get, hg, hexp]
    · simp [get, hg, hexp]
    · simp [get, hg, hexp, moveToFrontOfLru, List.getLast?_concat]
  · intro V s k e now hg h0
    have hexp : isExpired now e = false := by
      simp only [isExpired, decide_eq_false_iff_not]
      rintro ⟨hpos, _⟩
      omega
    simp [get, hg, hexp]
  · refine ⟨_, rfl, ?_, ?_, ?_, ?_⟩ <;> decide

/-- Witness for C5: a one-entry cache holding key `"k"` written at time
0 with TTL 50, read at time 60. -/
theorem cache_get_ttl_expiry_semantics_witness :
    (get 60 "k" (⟨[("k", ⟨37, 0, 50, none⟩)], ["k"], ⟨0, 0, 1, 0⟩⟩ : CacheState Nat)).1 =
        none ∧
    (get 60 "k" (⟨[("k", ⟨37, 0, 50, none⟩)], ["k"], ⟨0, 0, 1, 0⟩⟩ : CacheState Nat)).2.stats.misses = 1 ∧
    mapGet (get 60 "k" (⟨[("k", ⟨37, 0, 50, none⟩)], ["k"], ⟨0, 0, 1, 0⟩⟩ : CacheState Nat)).2.cache "k" = none := by
  have h := cache_get_ttl_expiry_semantics.1 Nat
    ⟨[("k", ⟨37, 0, 50, none⟩)], ["k"], ⟨0, 0, 1, 0⟩⟩ "k" ⟨37, 0, 50, none⟩ 60
    (by decide) (by decide) (by decide) (by decide)
  exact ⟨h.1, h.2.1, h.2.2⟩

/-- **C10.** The capacity-eviction loop of `set` does not terminate for
every `maxSize ≥ 1` cache.  (i) With `maxSize = 0` the loop spins
forever from any state, as the claim says; but (ii) with `maxSize = 1`,
after `set("")`, a `set` of a fresh key also loops forever: `evictLRU`
shifts `""` off the LRU list but — `""` being falsy — never decrements
`size`, and once the LRU list is empty the loop can no longer make
progress while `size + 1 > maxSize` stays true. -/
theorem cache_set_eviction_loop_divergence :
    (∀ (fuel : Nat) (s : CacheState Nat), ensureCapacityFuel 0 fuel s = none)
  ∧ set 0 0 "a" (7 : Nat) 0 none initCache = none
  ∧ (∃ s0 : CacheState Nat,
      set 1 0 "" (7 : Nat) 0 none initCache = some s0 ∧
      (∀ fuel : Nat, ensureCapacityFuel 1 fuel s0 = none) ∧
      set 1 1 "x" (8 : Nat) 0 none s0 = none) := by
  have hzero : ∀ (fuel : Nat) (s : CacheState Nat), ensureCapacityFuel 0 fuel s = none := by
    intro fuel
    induction fuel with
    | zero => intro s; simp [ensureCapacityFuel]
    | succ n ih => intro s; simp only [ensureCapacityFuel]; rw [if_pos (by omega)]; exact ih _
  refine ⟨hzero, ?_, ?_⟩
  · simp [set, mapGet, initCache, hzero]
  · refine ⟨⟨[("", ⟨7, 0, 0, none⟩)], [""], ⟨0, 0, 1, 0⟩⟩, by decide, ?_, ?_⟩
    · have hfix : ∀ fuel : Nat,
          ensureCapacityFuel 1 fuel
            (⟨[("", ⟨7, 0, 0, none⟩)], [], ⟨0, 0, 1, 0⟩⟩ : CacheState Nat) = none := by
        intro fuel
        induction fuel with
        | zero => decide
        | succ n ih =>
          simp only [ensureCapacityFuel]
          rw [if_pos (by decide)]
          exact ih
      intro fuel
      cases fuel with
      | zero => decide
      | succ n =>
        simp only [ensureCapacityFuel]
        rw [if_pos (by decide)]
        exact hfix n
    · have h1 : ∀ fuel : Nat,
          ensureCapacityFuel 1 fuel
            (⟨[("", ⟨7, 0, 0, none⟩)], [""], ⟨0, 0, 1, 0⟩⟩ : CacheState Nat) = none := by
        intro fuel
        cases fuel with
        | zero => decide
        | succ n =>
          simp only [ensureCapacityFuel]
          rw [if_pos (by decide)]
          have hfix : ∀ fuel : Nat,
              ensureCapacityFuel 1 fuel
                (⟨[("", ⟨7, 0, 0, none⟩)], [], ⟨0, 0, 1, 0⟩⟩ : CacheState Nat) = none := by
            intro fuel
            induction fuel with
            | zero => decide
            | succ m ih =>
              simp only [ensureCapacityFuel]
              rw [if_pos (by decide)]
              exact ih
          exact hfix n
      simp [set, mapGet, h1]

/-! ## Circuit breaker (class `CircuitBreaker`)

The wrapped asynchronous operation is modelled by its outcome `opOk`;
`now` is the `Date.now()` reading during the call.  `reject` results
model the two fail-fast `throw`s of `execute`, which happen *without*
invoking the operation. -/

/-- `CircuitState` (`open` is a Lean keyword, hence `opened`). -/
inductive CircuitState
  | closed
  | opened
  | halfOpen
deriving Repr, DecidableEq

/-- `CircuitBreakerOptions`. -/
structure CircuitBreakerOptions where
  failureThreshold : Nat
  recoveryTimeout : Int
  monitoringPeriod : Int
  halfOpenMaxCalls : Nat
deriving Repr, DecidableEq

/-- The mutable fields of `CircuitBreaker` (the `name` only appears in
log/error strings). -/
structure BreakerState where
  state : CircuitState
  failureCount : Nat
  successCount : Nat
  lastFailureTime : Option Int
  lastSuccessTime : Option Int
  totalCalls : Nat
  halfOpenCalls : Nat
deriving Repr, DecidableEq

/-- A freshly constructed breaker; `reset()` also restores exactly
this state. -/
def initBreaker : BreakerState :=
  { state := .closed, failureCount := 0, successCount := 0, lastFailureTime := none,
    lastSuccessTime := none, totalCalls := 0, halfOpenCalls := 0 }

/-- `CircuitBreaker.shouldAttemptReset`. -/
def shouldAttemptReset (o : CircuitBreakerOptions) (s : BreakerState) (now : Int) : Bool :=
  match s.lastFailureTime with
  | none => false
  | some t => decide (now - t ≥ o.recoveryTimeout)

/-- `CircuitBreaker.onSuccess`. -/
def onSuccess (o : CircuitBreakerOptions) (s : BreakerState) (now : Int) : BreakerState :=
  let s1 := { s with successCount := s.successCount + 1, lastSuccessTime := some now }
  if s1.state = .halfOpen ∧ s1.halfOpenCalls ≥ o.halfOpenMaxCalls then
    { s1 with state := .closed, failureCount := 0 }
  else
    s1

/-- `CircuitBreaker.onFailure`. -/
def onFailure (o : CircuitBreakerOptions) (s : BreakerState) (now : Int) : BreakerState :=
  let s1 := { s with failureCount := s.failureCount + 1, lastFailureTime := some now }
  if s1.state = .halfOpen then
    { s1 with state := .opened }
  else if s1.state = .closed ∧ s1.failureCount ≥ o.failureThreshold then
    { s1 with state := .opened }
  else
    s1

/-- How one `execute` call ends: rejected while OPEN (the operation is
not invoked), rejected because the HALF_OPEN probe budget is spent (the
operation is not invoked), or invoked with the operation succeeding or
failing (the failure is rethrown to the caller). -/
inductive ExecOutcome
  | rejectedOpen
  | rejectedHalfOpen
  | succeeded
  | failedRethrown
deriving Repr, DecidableEq

/-- `CircuitBreaker.execute`, as a function of the clock reading and the
operation's outcome.  Mirrors the source order: the OPEN check (either
fail fast or enter HALF_OPEN with `halfOpenCalls = 0`), the HALF_OPEN
probe-budget check, `totalCalls++`, `halfOpenCalls++` when HALF_OPEN,
then the operation and `onSuccess`/`onFailure`. -/
def execute (o : CircuitBreakerOptions) (s : BreakerState) (now : Int) (opOk : Bool) :
    ExecOutcome × BreakerState :=
  if s.state = .opened ∧ ¬ shouldAttemptReset o s now then
    (.rejectedOpen, s)
  else
    let s1 := if s.state = .opened then { s with state := .halfOpen, halfOpenCalls := 0 } else s
    if s1.state = .halfOpen ∧ s1.halfOpenCalls ≥ o.halfOpenMaxCalls then
      (.rejectedHalfOpen, s1)
    else
      let s2 := { s1 with totalCalls := s1.totalCalls + 1 }
      let s3 := if s2.state = .halfOpen then { s2 with halfOpenCalls := s2.halfOpenCalls + 1 }
                else s2
      if opOk then (.succeeded, onSuccess o s3 now) else (.failedRethrown, onFailure o s3 now)

/-- One observable transition of a breaker: an `execute` call (with any
clock reading and operation outcome) or an administrative `reset()`. -/
inductive BreakerStep (o : CircuitBreakerOptions) : BreakerState → BreakerState → Prop
  | exec (s : BreakerState) (now : Int) (opOk : Bool) :
      BreakerStep o s (execute o s now opOk).2
  | reset (s : BreakerState) : BreakerStep o s initBreaker

/-- States reachable from a fresh breaker. -/
def BreakerReachable (o : CircuitBreakerOptions) (s : BreakerState) : Prop :=
  Relation.ReflTransGen (BreakerStep o) initBreaker s

/-- Executing `n` consecutive successful calls at a fixed clock
reading. -/
def execSuccesses (o : CircuitBreakerOptions) (now : Int) :
    Nat → BreakerState → BreakerState
  | 0, s => s
  | n + 1, s => execSuccesses o now n (execute o s now true).2

theorem execute_open_reject {o : CircuitBreakerOptions} {s : BreakerState} {now : Int}
    (b : Bool) (h1 : s.state = .opened) (h2 : shouldAttemptReset o s now = false) :
    execute o s now b = (.rejectedOpen, s) := by
  simp [execute, h1, h2]

theorem execute_open_probe_reject {o : CircuitBreakerOptions} {s : BreakerState} {now : Int}
    (b : Bool) (h1 : s.state = .opened) (h2 : shouldAttemptReset o s now = true)
    (h3 : o.halfOpenMaxCalls = 0) :
    execute o s now b = (.rejectedHalfOpen, { s with state := .halfOpen, halfOpenCalls := 0 }) := by
  simp [execute, h1, h2, h3]

theorem execute_open_probe_invoke {o : CircuitBreakerOptions} {s : BreakerState} {now : Int}
    (b : Bool) (h1 : s.state = .opened) (h2 : shouldAttemptReset o s now = true)
    (h3 : 1 ≤ o.halfOpenMaxCalls) :
    execute o s now b =
      (if b then .succeeded else .failedRethrown,
       if b then
         onSuccess o { s with state := .halfOpen, halfOpenCalls := 1,
                              totalCalls := s.totalCalls + 1 } now
       else
         onFailure o { s with state := .halfOpen, halfOpenCalls := 1,
                              totalCalls := s.totalCalls + 1 } now) := by
  have hne : ¬ (0 ≥ o.halfOpenMaxCalls) := by omega
  cases b <;> simp [execute, h1, h2, hne]

theorem execute_halfOpen_reject {o : CircuitBreakerOptions} {s : BreakerState} {now : Int}
    (b : Bool) (h1 : s.state = .halfOpen) (h2 : o.halfOpenMaxCalls ≤ s.halfOpenCalls) :
    execute o s now b = (.rejectedHalfOpen, s) := by
  simp [execute, h1, h2]

theorem execute_halfOpen_invoke {o : CircuitBreakerOptions} {s : BreakerState} {now : Int}
    (b : Bool) (h1 : s.state = .halfOpen) (h2 : s.halfOpenCalls < o.halfOpenMaxCalls) :
    execute o s now b =
      (if b then .succeeded else .failedRethrown,
       if b then
         onSuccess o { s with totalCalls := s.totalCalls + 1,
                              halfOpenCalls := s.halfOpenCalls + 1 } now
       else
         onFailure o { s with totalCalls := s.totalCalls + 1,
                              halfOpenCalls := s.halfOpenCalls + 1 } now) := by
  have hne : ¬ (s.halfOpenCalls ≥ o.halfOpenMaxCalls) := by omega
  cases b <;> simp [execute, h1, hne]

theorem execute_closed {o : CircuitBreakerOptions} {s : BreakerState} {now : Int}
    (b : Bool) (h1 : s.state = .closed) :
    execute o s now b =
      (if b then .succeeded else .failedRethrown,
       if b then onSuccess o { s with totalCalls := s.totalCalls + 1 } now
       else onFailure o { s with totalCalls := s.totalCalls + 1 } now) := by
  cases b <;> simp [execute, h1]

theorem onSuccess_halfOpenCalls (o : CircuitBreakerOptions) (s : BreakerState) (now : Int) :
    (onSuccess o s now).halfOpenCalls = s.halfOpenCalls := by
  simp only [onSuccess]
  split <;> rfl

theorem onFailure_halfOpenCalls (o : CircuitBreakerOptions) (s : BreakerState) (now : Int) :
    (onFailure o s now).halfOpenCalls = s.halfOpenCalls := by
  simp only [onFailure]
  split
  · rfl
  · split <;> rfl

theorem onSuccess_full {o : CircuitBreakerOptions} {s : BreakerState} {now : Int}
    (h1 : s.state = .halfOpen) (h2 : o.halfOpenMaxCalls ≤ s.halfOpenCalls) :
    onSuccess o s now =
      { s with successCount := s.successCount + 1, lastSuccessTime := some now,
               state := .closed, failureCount := 0 } := by
  simp [onSuccess, h1, h2]

theorem onSuccess_not_full {o : CircuitBreakerOptions} {s : BreakerState} {now : Int}
    (h2 : ¬ (s.state = .halfOpen ∧ s.halfOpenCalls ≥ o.halfOpenMaxCalls)) :
    onSuccess o s now =
      { s with successCount := s.successCount + 1, lastSuccessTime := some now } := by
  simp only [onSuccess]
  rw [if_neg h2]

theorem onFailure_halfOpen {o : CircuitBreakerOptions} {s : BreakerState} {now : Int}
    (h1 : s.state = .halfOpen) :
    onFailure o s now =
      { s with failureCount := s.failureCount + 1, lastFailureTime := some now,
               state := .opened } := by
  simp [onFailure, h1]

theorem onFailure_closed {o : CircuitBreakerOptions} {s : BreakerState} {now : Int}
    (h1 : s.state = .closed) :
    onFailure o s now =
      if s.failureCount + 1 ≥ o.failureThreshold then
        { s with failureCount := s.failureCount + 1, lastFailureTime := some now,
                 state := .opened }
      else
        { s with failureCount := s.failureCount + 1, lastFailureTime := some now } := by
  by_cases h2 : s.failureCount + 1 ≥ o.failureThreshold
  · rw [if_pos h2]
    simp [onFailure, h1, h2]
  · rw [if_neg h2]
    simp [onFailure, h1, h2]

/-- A single `execute` call keeps `halfOpenCalls` within the probe
budget. -/
theorem execute_halfOpenCalls_le (o : CircuitBreakerOptions) (s : BreakerState) (now : Int)
    (b : Bool) (hs : s.halfOpenCalls ≤ o.halfOpenMaxCalls) :
    (execute o s now b).2.halfOpenCalls ≤ o.halfOpenMaxCalls := by
  cases hst : s.state with
  | closed =>
    rw [execute_closed b hst]
    cases b
    · show (onFailure o { s with totalCalls := s.totalCalls + 1 } now).halfOpenCalls ≤ _
      rw [onFailure_halfOpenCalls]
      exact hs
    · show (onSuccess o { s with totalCalls := s.totalCalls + 1 } now).halfOpenCalls ≤ _
      rw [onSuccess_halfOpenCalls]
      exact hs
  | halfOpen =>
    by_cases hb : o.halfOpenMaxCalls ≤ s.halfOpenCalls
    · rw [execute_halfOpen_reject b hst hb]
      exact hs
    · have hlt : s.halfOpenCalls < o.halfOpenMaxCalls := by omega
      rw [execute_halfOpen_invoke b hst hlt]
      cases b
      · show (onFailure o { s with totalCalls := s.totalCalls + 1, halfOpenCalls := s.halfOpenCalls + 1 } now).halfOpenCalls ≤ _
        rw [onFailure_halfOpenCalls]
        show s.halfOpenCalls + 1 ≤ _
        omega
      · show (onSuccess o { s with totalCalls := s.totalCalls + 1, halfOpenCalls := s.halfOpenCalls + 1 } now).halfOpenCalls ≤ _
        rw [onSuccess_halfOpenCalls]
        show s.halfOpenCalls + 1 ≤ _
        omega
  | opened =>
    cases hsar : shouldAttemptReset o s now with
    | false =>
      rw [execute_open_reject b hst hsar]
      exact hs
    | true =>
      by_cases hmax : o.halfOpenMaxCalls = 0
      · rw [execute_open_probe_reject b hst hsar hmax]
        show 0 ≤ _
        exact Nat.zero_le _
      · have h1 : 1 ≤ o.halfOpenMaxCalls := by omega
        rw [execute_open_probe_invoke b hst hsar h1]
        cases b
        · show (onFailure o { s with state := .halfOpen, halfOpenCalls := 1, totalCalls := s.totalCalls + 1 } now).halfOpenCalls ≤ _
          rw [onFailure_halfOpenCalls]
          exact h1
        · show (onSuccess o { s with state := .halfOpen, halfOpenCalls := 1, totalCalls := s.totalCalls + 1 } now).halfOpenCalls ≤ _
          rw [onSuccess_halfOpenCalls]
          exact h1

/-- **C8.** Invariant and fail-fast behavior. -/
theorem circuitBreaker_halfOpen_probe_budget :
    (∀ (o : CircuitBreakerOptions) (s : BreakerState), BreakerReachable o s →
      s.halfOpenCalls ≤ o.halfOpenMaxCalls)
  ∧ (∀ (o : CircuitBreakerOptions) (s : BreakerState) (now : Int) (b : Bool),
      s.state = .halfOpen → o.halfOpenMaxCalls ≤ s.halfOpenCalls →
      execute o s now b = (.rejectedHalfOpen, s))
  ∧ (∀ (o : CircuitBreakerOptions) (s : BreakerState) (now : Int) (b : Bool) (t : Int),
      s.state = .opened → s.lastFailureTime = some t → now - t < o.recoveryTimeout →
      execute o s now b = (.rejectedOpen, s)) := by
  refine ⟨?_, ?_, ?_⟩
  · intro o s h
    induction h with
    | refl => exact Nat.zero_le _
    | tail _ hstep ih =>
      cases hstep with
      | exec now ok => exact execute_halfOpenCalls_le o _ now ok ih
      | reset => exact Nat.zero_le _
  · intro o s now b hs hbudget
    exact execute_halfOpen_reject b hs hbudget
  · intro o s now b t hs hlf hlt
    have hsar : shouldAttemptReset o s now = false := by
      simp only [shouldAttemptReset, hlf, decide_eq_false_iff_not]
      omega
    exact execute_open_reject b hs hsar

/-- Running successful probes in HALF_OPEN: starting with `c` probes
already admitted, `k` further consecutive successes (with
`c + k = halfOpenMaxCalls`) close the breaker and reset
`failureCount`. -/
theorem execSuccesses_halfOpen_closes (o : CircuitBreakerOptions) (now : Int) :
    ∀ (k c : Nat) (s : BreakerState), s.state = .halfOpen → s.halfOpenCalls = c →
      c + k = o.halfOpenMaxCalls → 1 ≤ k →
      (execSuccesses o now k s).state = .closed ∧
      (execSuccesses o now k s).failureCount = 0 := by
  intro k
  induction k with
  | zero => intro c s _ _ _ hk; omega
  | succ n ih =>
    intro c s hs hc hsum _
    have hlt : s.halfOpenCalls < o.halfOpenMaxCalls := by omega
    have hstep : (execute o s now true).2 =
        onSuccess o { s with totalCalls := s.totalCalls + 1, halfOpenCalls := s.halfOpenCalls + 1 } now := by
      rw [execute_halfOpen_invoke true hs hlt]
      rfl
    simp only [execSuccesses]
    rw [hstep]
    cases n with
    | zero =>
      have hfull : o.halfOpenMaxCalls ≤ s.halfOpenCalls + 1 := by omega
      rw [onSuccess_full (s := { s with totalCalls := s.totalCalls + 1, halfOpenCalls := s.halfOpenCalls + 1 }) hs hfull]
      exact ⟨rfl, rfl⟩
    | succ m =>
      rw [onSuccess_not_full (s := { s with totalCalls := s.totalCalls + 1, halfOpenCalls := s.halfOpenCalls + 1 })
        (by rintro ⟨_, hge⟩; have hge2 : o.halfOpenMaxCalls ≤ s.halfOpenCalls + 1 := hge; omega)]
      refine ih (c + 1) _ hs ?_ (by omega) (by omega)
      show s.halfOpenCalls + 1 = c + 1
      omega

/-- One failed call in CLOSED below the threshold: count up, record the
failure time, stay CLOSED. -/
theorem execute_closed_failure_below {o : CircuitBreakerOptions} {s : BreakerState} {now : Int}
    (hs : s.state = .closed) (hlt : s.failureCount + 1 < o.failureThreshold) :
    execute o s now false =
      (.failedRethrown,
        { s with totalCalls := s.totalCalls + 1, failureCount := s.failureCount + 1,
                 lastFailureTime := some now }) := by
  rw [execute_closed false hs]
  show (ExecOutcome.failedRethrown, onFailure o { s with totalCalls := s.totalCalls + 1 } now) = _
  rw [onFailure_closed (s := { s with totalCalls := s.totalCalls + 1 }) hs]
  rw [if_neg (show ¬ s.failureCount + 1 ≥ o.failureThreshold by omega)]

/-- One failed call in CLOSED reaching the threshold: trip to OPEN. -/
theorem execute_closed_failure_trip {o : CircuitBreakerOptions} {s : BreakerState} {now : Int}
    (hs : s.state = .closed) (hge : o.failureThreshold ≤ s.failureCount + 1) :
    execute o s now false =
      (.failedRethrown,
        { s with totalCalls := s.totalCalls + 1, failureCount := s.failureCount + 1,
                 lastFailureTime := some now, state := .opened }) := by
  rw [execute_closed false hs]
  show (ExecOutcome.failedRethrown, onFailure o { s with totalCalls := s.totalCalls + 1 } now) = _
  rw [onFailure_closed (s := { s with totalCalls := s.totalCalls + 1 }) hs]
  rw [if_pos (show s.failureCount + 1 ≥ o.failureThreshold from hge)]

/-- **C3.** The breaker state machine at `failureThreshold = 3`. -/
theorem circuitBreaker_threshold_and_cycle :
    (∀ (o : CircuitBreakerOptions) (s : BreakerState) (t1 t2 t3 : Int),
      o.failureThreshold = 3 → s.state = .closed → s.failureCount = 0 →
      (execute o s t1 false).1 = .failedRethrown ∧
      (execute o s t1 false).2.state = .closed ∧
      (execute o (execute o s t1 false).2 t2 false).2.state = .closed ∧
      (execute o (execute o (execute o s t1 false).2 t2 false).2 t3 false).2.state = .opened ∧
      (execute o (execute o (execute o s t1 false).2 t2 false).2 t3 false).2.lastFailureTime = some t3)
  ∧ (∀ (o : CircuitBreakerOptions) (s : BreakerState) (now : Int) (b : Bool) (t : Int),
      s.state = .opened → s.lastFailureTime = some t → now - t < o.recoveryTimeout →
      execute o s now b = (.rejectedOpen, s))
  ∧ (∀ (o : CircuitBreakerOptions) (s : BreakerState) (now : Int) (b : Bool) (t : Int),
      s.state = .opened → s.lastFailureTime = some t → o.recoveryTimeout ≤ now - t →
      1 ≤ o.halfOpenMaxCalls →
      execute o s now b =
        (if b then .succeeded else .failedRethrown,
         if b then
           onSuccess o { s with state := .halfOpen, halfOpenCalls := 1, totalCalls := s.totalCalls + 1 } now
         else
           onFailure o { s with state := .halfOpen, halfOpenCalls := 1, totalCalls := s.totalCalls + 1 } now))
  ∧ (∀ (o : CircuitBreakerOptions) (s : BreakerState) (now : Int),
      s.state = .halfOpen → s.halfOpenCalls = 0 → 1 ≤ o.halfOpenMaxCalls →
      (execSuccesses o now o.halfOpenMaxCalls s).state = .closed ∧
      (execSuccesses o now o.halfOpenMaxCalls s).failureCount = 0)
  ∧ (∀ (o : CircuitBreakerOptions) (s : BreakerState) (now : Int),
      s.state = .halfOpen → s.halfOpenCalls < o.halfOpenMaxCalls →
      (execute o s now false).1 = .failedRethrown ∧
      (execute o s now false).2.state = .opened ∧
      (execute o s now false).2.lastFailureTime = some now)
  ∧ (∀ (o : CircuitBreakerOptions) (s : BreakerState) (now : Int),
      s.state = .closed →
      (execute o s now true).1 = .succeeded ∧
      (execute o s now true).2.failureCount = s.failureCount ∧
      (execute o s now true).2.state = .closed) := by
  refine ⟨?_, ?_, ?_, ?_, ?_, ?_⟩
  · intro o s t1 t2 t3 hth hs hfc
    have e1 := @execute_closed_failure_below o s t1 hs (by omega)
    have e1s : (execute o s t1 false).2 =
        { s with totalCalls := s.totalCalls + 1, failureCount := s.failureCount + 1,
                 lastFailureTime := some t1 } := by rw [e1]
    have st1 : (execute o s t1 false).2.state = .closed := by rw [e1s]; exact hs
    have e2 := @execute_closed_failure_below o ((execute o s t1 false).2) t2 st1
      (by rw [e1s]; show s.failureCount + 1 + 1 < o.failureThreshold; omega)
    have e2s : (execute o (execute o s t1 false).2 t2 false).2 =
        { (execute o s t1 false).2 with
            totalCalls := (execute o s t1 false).2.totalCalls + 1,
            failureCount := (execute o s t1 false).2.failureCount + 1,
            lastFailureTime := some t2 } := by rw [e2]
    have st2 : (execute o (execute o s t1 false).2 t2 false).2.state = .closed := by
      rw [e2s]; exact st1
    have e3 := @execute_closed_failure_trip o ((execute o (execute o s t1 false).2 t2 false).2) t3 st2
      (by rw [e2s, e1s]; show o.failureThreshold ≤ s.failureCount + 1 + 1 + 1; omega)
    have e3s : (execute o (execute o (execute o s t1 false).2 t2 false).2 t3 false).2 =
        { (execute o (execute o s t1 false).2 t2 false).2 with
            totalCalls := (execute o (execute o s t1 false).2 t2 false).2.totalCalls + 1,
            failureCount := (execute o (execute o s t1 false).2 t2 false).2.failureCount + 1,
            lastFailureTime := some t3, state := .opened } := by rw [e3]
    refine ⟨by rw [e1], st1, st2, by rw [e3s], by rw [e3s]⟩
  · intro o s now b t hs hlf hlt
    have hsar : shouldAttemptReset o s now = false := by
      simp only [shouldAttemptReset, hlf, decide_eq_false_iff_not]
      omega
    exact execute_open_reject b hs hsar
  · intro o s now b t hs hlf hle hmax
    have hsar : shouldAttemptReset o s now = true := by
      simp only [shouldAttemptReset, hlf, decide_eq_true_eq]
      omega
    exact execute_open_probe_invoke b hs hsar hmax
  · intro o s now hs hc0 hmax
    exact execSuccesses_halfOpen_closes o now o.halfOpenMaxCalls 0 s hs hc0 (by omega) hmax
  · intro o s now hs hlt
    have he := @execute_halfOpen_invoke o s now false hs hlt
    have hes : (execute o s now false).2 =
        onFailure o { s with totalCalls := s.totalCalls + 1,
                             halfOpenCalls := s.halfOpenCalls + 1 } now := by
      rw [he]
      rfl
    refine ⟨by rw [he]; rfl, ?_, ?_⟩
    · rw [hes, onFailure_halfOpen (s := { s with totalCalls := s.totalCalls + 1, halfOpenCalls := s.halfOpenCalls + 1 }) hs]
    · rw [hes, onFailure_halfOpen (s := { s with totalCalls := s.totalCalls + 1, halfOpenCalls := s.halfOpenCalls + 1 }) hs]
  · intro o s now hs
    have he := @execute_closed o s now true hs
    have hns : ¬ (({ s with totalCalls := s.totalCalls + 1 } : BreakerState).state = .halfOpen ∧
        ({ s with totalCalls := s.totalCalls + 1 } : BreakerState).halfOpenCalls ≥ o.halfOpenMaxCalls) := by
      rintro ⟨h1, _⟩
      have h2 : s.state = .halfOpen := h1
      rw [hs] at h2
      cases h2
    have hes : (execute o s now true).2 =
        { s with totalCalls := s.totalCalls + 1, successCount := s.successCount + 1,
                 lastSuccessTime := some now } := by
      rw [he]
      show onSuccess o { s with totalCalls := s.totalCalls + 1 } now = _
      rw [onSuccess_not_full (s := { s with totalCalls := s.totalCalls + 1 }) hns]
    refine ⟨by rw [he]; rfl, by rw [hes], by rw [hes]; exact hs⟩

/-- Witness for C3 with options `{failureThreshold := 3, recoveryTimeout := 60000,
monitoringPeriod := 300000, halfOpenMaxCalls := 2}`: three failures trip a
fresh breaker; a call 98 ms after the last failure is rejected; two
successful probes from a fresh HALF_OPEN close it with `failureCount = 0`. -/
theorem circuitBreaker_threshold_and_cycle_witness :
    (execute ⟨3, 60000, 300000, 2⟩ (execute ⟨3, 60000, 300000, 2⟩ (execute ⟨3, 60000, 300000, 2⟩ initBreaker 0 false).2 1 false).2 2 false).2.state = .opened ∧
    execute ⟨3, 60000, 300000, 2⟩ ⟨.opened, 3, 0, some 2, none, 3, 0⟩ 100 true =
      (.rejectedOpen, ⟨.opened, 3, 0, some 2, none, 3, 0⟩) ∧
    (execSuccesses ⟨3, 60000, 300000, 2⟩ 70000 2 ⟨.halfOpen, 3, 0, some 2, none, 3, 0⟩).state = .closed ∧
    (execSuccesses ⟨3, 60000, 300000, 2⟩ 70000 2 ⟨.halfOpen, 3, 0, some 2, none, 3, 0⟩).failureCount = 0 := by
  refine ⟨?_, ?_, ?_, ?_⟩
  · exact (circuitBreaker_threshold_and_cycle.1 ⟨3, 60000, 300000, 2⟩ initBreaker 0 1 2
      rfl rfl rfl).2.2.2.1
  · exact circuitBreaker_threshold_and_cycle.2.1 ⟨3, 60000, 300000, 2⟩ _ 100 true 2
      rfl rfl (by decide)
  · exact (circuitBreaker_threshold_and_cycle.2.2.2.1 ⟨3, 60000, 300000, 2⟩ _ 70000
      rfl rfl (by decide)).1
  · exact (circuitBreaker_threshold_and_cycle.2.2.2.1 ⟨3, 60000, 300000, 2⟩ _ 70000
      rfl rfl (by decide)).2

/-- Witness for C8 (with `halfOpenMaxCalls = 0` and `failureThreshold = 1`):
after one failure at time 0 and a call at time 5000 the breaker is
reachable, rests in HALF_OPEN with its probe budget spent, and the next
call fails fast without invoking the operation. -/
theorem circuitBreaker_halfOpen_probe_budget_witness :
    (execute ⟨1, 1000, 300000, 0⟩
      (execute ⟨1, 1000, 300000, 0⟩ initBreaker 0 false).2 5000 true).2.halfOpenCalls ≤ 0 ∧
    execute ⟨1, 1000, 300000, 0⟩
      (execute ⟨1, 1000, 300000, 0⟩
        (execute ⟨1, 1000, 300000, 0⟩ initBreaker 0 false).2 5000 true).2 6000 true =
      (.rejectedHalfOpen,
        (execute ⟨1, 1000, 300000, 0⟩
          (execute ⟨1, 1000, 300000, 0⟩ initBreaker 0 false).2 5000 true).2) := by
  constructor
  · exact circuitBreaker_halfOpen_probe_budget.1 ⟨1, 1000, 300000, 0⟩ _
      (Relation.ReflTransGen.tail
        (Relation.ReflTransGen.tail Relation.ReflTransGen.refl
          (BreakerStep.exec initBreaker 0 false))
        (BreakerStep.exec _ 5000 true))
  · exact circuitBreaker_halfOpen_probe_budget.2.1 ⟨1, 1000, 300000, 0⟩ _ 6000 true
      (by decide) (by decide)

/-! ## Degradation manager (`src/shared/degradation.ts`)

`GracefulDegradationManager` is modelled by `DegState`; errors by the
fields the manager reads (`message`, `severity`, `category`).  Each
strategy's `action` both returns the new `ServiceStatus` and (in the
source) assigns `this.currentServiceLevel`; since `handleError`
immediately overwrites `currentServiceLevel` with the returned status's
level and nothing reads the field in between, the assignment is folded
into `handleError`. -/

/-- `ServiceLevel`. -/
inductive ServiceLevel
  | full
  | degraded
  | minimal
  | emergency
deriving Repr, DecidableEq

/-- `ErrorSeverity` of `src/shared/errors.ts`. -/
inductive ErrorSeverity
  | low
  | medium
  | high
  | critical
deriving Repr, DecidableEq

/-- `ErrorCategory` of `src/shared/errors.ts`. -/
inductive ErrorCategory
  | validation
  | analysis
  | externalService
  | resource
  | configuration
  | network
  | rateLimit
  | authentication
deriving Repr, DecidableEq

/-- The fields of `AILintError` the degradation manager reads. -/
structure AILintErrorModel where
  message : String
  severity : ErrorSeverity
  category : ErrorCategory
deriving Repr, DecidableEq

/-- `ServiceStatus` (`estimatedRecovery` is a `Date`, modelled as its
millisecond timestamp). -/
structure ServiceStatus where
  level : ServiceLevel
  availableFeatures : List String
  unavailableFeatures : List String
  degradationReason : Option String := none
  estimatedRecovery : Option Int := none
deriving Repr, DecidableEq

/-- An entry of `degradationHistory`. -/
structure DegradationEvent where
  timestamp : Int
  level : ServiceLevel
  reason : String
deriving Repr, DecidableEq

/-- The mutable fields of `GracefulDegradationManager`. -/
structure DegState where
  currentServiceLevel : ServiceLevel
  currentServiceStatus : ServiceStatus
  lastDegradation : Option Int
  degradationHistory : List DegradationEvent
deriving Repr, DecidableEq

/-- `getInitialFullServiceStatus`. -/
def getInitialFullServiceStatus : ServiceStatus :=
  { level := .full,
    availableFeatures :=
      ["Complete code analysis",
       "All rule sets (universal + GitHub)",
       "Advanced metrics calculation",
       "Educational explanations",
       "Detailed suggestions",
       "Framework-specific analysis"],
    unavailableFeatures := [] }

/-- The manager as the constructor builds it. -/
def initDegState : DegState :=
  { currentServiceLevel := .full,
    currentServiceStatus := getInitialFullServiceStatus,
    lastDegradation := none,
    degradationHistory := [] }

/-- `fallbackToLocalRules` (target DEGRADED, recovery estimate 30 min). -/
def fallbackToLocalRules (now : Int) : ServiceStatus :=
  { level := .degraded,
    availableFeatures :=
      ["Universal rules analysis",
       "Basic code metrics",
       "Syntax validation",
       "Local rule application"],
    unavailableFeatures :=
      ["Framework-specific rules (React, Vue, etc.)",
       "Principle-based rules (SOLID, DDD)",
       "Community-contributed rules",
       "Rule updates from GitHub"],
    degradationReason := some "GitHub API unavailable - using local rules only",
    estimatedRecovery := some (now + 30 * 60 * 1000) }

/-- `simplifyAnalysis` (target DEGRADED, recovery estimate 10 min). -/
def simplifyAnalysis (now : Int) : ServiceStatus :=
  { level := .degraded,
    availableFeatures :=
      ["Basic syntax validation",
       "Core security rules",
       "Simple metrics calculation",
       "Essential quality checks"],
    unavailableFeatures :=
      ["Complex pattern analysis",
       "Advanced metrics calculation",
       "Comprehensive rule evaluation",
       "Deep code structure analysis"],
    degradationReason := some "Resource constraints - simplified analysis mode",
    estimatedRecovery := some (now + 10 * 60 * 1000) }

/-- `enableCacheOnlyMode` (target MINIMAL, recovery estimate 1 h). -/
def enableCacheOnlyMode (now : Int) : ServiceStatus :=
  { level := .minimal,
    availableFeatures :=
      ["Cached rule analysis",
       "Previously downloaded rules",
       "Local rule validation",
       "Basic error reporting"],
    unavailableFeatures :=
      ["Real-time rule updates",
       "GitHub rule fetching",
       "Dynamic rule loading",
       "External service integration"],
    degradationReason := some "Network connectivity issues - cache-only mode",
    estimatedRecovery := some (now + 60 * 60 * 1000) }

/-- `enableMinimalAnalysis` (target EMERGENCY, no recovery estimate). -/
def enableMinimalAnalysis : ServiceStatus :=
  { level := .emergency,
    availableFeatures :=
      ["Syntax validation only",
       "Critical error detection",
       "Basic response generation"],
    unavailableFeatures :=
      ["Rule-based analysis",
       "Code metrics calculation",
       "Quality scoring",
       "Detailed suggestions",
       "Educational explanations"],
    degradationReason := some "Critical system issues - emergency mode only",
    estimatedRecovery := none }

/-- `DegradationStrategy`: the predicate and the status the action
builds at the given clock reading. -/
structure DegradationStrategy where
  name : String
  condition : AILintErrorModel → Bool
  action : Int → ServiceStatus
  description : String

/-- The ordered `strategies` array of the manager. -/
def strategies : List DegradationStrategy :=
  [{ name := "minimal-analysis",
     condition := fun e => e.severity = .critical,
     action := fun _ => enableMinimalAnalysis,
     description := "Provide basic analysis only when system is severely impacted" },
   { name := "github-api-fallback",
     condition := fun e => e.category = .externalService,
     action := fallbackToLocalRules,
     description := "Use local rules when GitHub API is unavailable" },
   { name := "analysis-simplification",
     condition := fun e => e.category = .resource,
     action := simplifyAnalysis,
     description := "Reduce analysis complexity to save resources" },
   { name := "cache-only-mode",
     condition := fun e => e.category = .network,
     action := enableCacheOnlyMode,
     description := "Use only cached data when network is unavailable" }]

/-- `this.strategies.find(s => s.condition(error))`. -/
def findStrategy (e : AILintErrorModel) : Option DegradationStrategy :=
  strategies.find? (fun st => st.condition e)

/-- The history cap: push, then `slice(-50)` when length exceeds 50.
For lists of length ≤ 50, `drop (length - 50)` drops nothing, so the
`if` guard of the source is subsumed. -/
def sliceLast50 {α : Type} (l : List α) : List α :=
  l.drop (l.length - 50)

/-- `recordDegradation(strategy, reason)`: set `lastDegradation`, append
the event — carrying `this.currentServiceLevel` as read at this
moment — and cap the history at 50. -/
def recordDegradation (now : Int) (strategy : String) (reason : String) (s : DegState) :
    DegState :=
  { s with
      lastDegradation := some now,
      degradationHistory :=
        sliceLast50 (s.degradationHistory ++
          [{ timestamp := now, level := s.currentServiceLevel,
             reason := strategy ++ ": " ++ reason }]) }

/-- `handleError(error)`: first matching strategy fires —
`recordDegradation` runs *before* the strategy action, then the produced
status is installed; with no match the current status is returned and
nothing changes. -/
def handleError (now : Int) (e : AILintErrorModel) (s : DegState) :
    ServiceStatus × DegState :=
  match findStrategy e with
  | some strat =>
    let s1 := recordDegradation now strat.name e.message s
    let status := strat.action now
    (status, { s1 with currentServiceStatus := status,
                       currentServiceLevel := status.level })
  | none => (s.currentServiceStatus, s)

/-- `getCurrentStatus()`. -/
def getCurrentStatus (s : DegState) : ServiceStatus :=
  s.currentServiceStatus

/-- `getDegradationHistory()` (returns a copy of the array). -/
def getDegradationHistory (s : DegState) : List DegradationEvent :=
  s.degradationHistory

/-- `attemptRecovery()`: true immediately at FULL; otherwise recover —
by setting `currentServiceLevel` only — when more than 30 minutes have
passed since the last degradation (`Infinity` when none was ever
recorded). -/
def attemptRecovery (now : Int) (s : DegState) : Bool × DegState :=
  if s.currentServiceLevel = .full then
    (true, s)
  else
    match s.lastDegradation with
    | none => (true, { s with currentServiceLevel := .full })
    | some t =>
      if now - t > 30 * 60 * 1000 then
        (true, { s with currentServiceLevel := .full })
      else
        (false, s)

/-- A sequence of `handleError` calls, each with its clock reading. -/
def runHandleErrors : List (Int × AILintErrorModel) → DegState → DegState
  | [], s => s
  | p :: rest, s => runHandleErrors rest (handleError p.1 p.2 s).2

theorem sliceLast50_length_le {α : Type} (l : List α) : (sliceLast50 l).length ≤ 50 := by
  unfold sliceLast50
  rw [List.length_drop]
  omega

theorem sliceLast50_of_le {α : Type} (l : List α) (h : l.length ≤ 50) :
    sliceLast50 l = l := by
  unfold sliceLast50
  rw [show l.length - 50 = 0 from by omega, List.drop_zero]

theorem sliceLast50_map {α β : Type} (f : α → β) (l : List α) :
    (sliceLast50 l).map f = sliceLast50 (l.map f) := by
  unfold sliceLast50
  rw [List.map_drop, List.length_map]

theorem sliceLast50_getLast {α : Type} (l : List α) (x : α) :
    (sliceLast50 (l ++ [x])).getLast? = some x := by
  unfold sliceLast50
  rw [List.drop_append_eq_append_drop]
  have h0 : (l ++ [x]).length - 50 - l.length = 0 := by
    rw [List.length_append, List.length_singleton]
    omega
  rw [h0, List.drop_zero, List.getLast?_concat]

theorem sliceLast50_append_absorb {α : Type} (a b : List α) :
    sliceLast50 (sliceLast50 a ++ b) = sliceLast50 (a ++ b) := by
  by_cases h : a.length ≤ 50
  · rw [sliceLast50_of_le a h]
  · unfold sliceLast50
    have hlen : (a.drop (a.length - 50)).length = 50 := by
      rw [List.length_drop]
      omega
    have hamt1 : (a.drop (a.length - 50) ++ b).length - 50 = b.length := by
      rw [List.length_append, hlen]
      omega
    have hamt2 : (a ++ b).length - 50 = a.length - 50 + b.length := by
      rw [List.length_append]
      omega
    rw [hamt1, hamt2, List.drop_append_eq_append_drop, List.drop_append_eq_append_drop,
      List.drop_drop, hlen]
    rw [show a.length - 50 + b.length - a.length = b.length - 50 from by omega]

/-- `handleError` when the first matching strategy is `strat`. -/
theorem handleError_some {s : DegState} {now : Int} {e : AILintErrorModel}
    {strat : DegradationStrategy} (h : findStrategy e = some strat) :
    handleError now e s =
      (strat.action now,
       { currentServiceLevel := (strat.action now).level,
         currentServiceStatus := strat.action now,
         lastDegradation := some now,
         degradationHistory := sliceLast50 (s.degradationHistory ++
           [{ timestamp := now, level := s.currentServiceLevel,
              reason := strat.name ++ ": " ++ e.message }]) }) := by
  simp [handleError, h, recordDegradation]

/-- `handleError` when no strategy matches: the current status is
returned and nothing changes. -/
theorem handleError_none {s : DegState} {now : Int} {e : AILintErrorModel}
    (h : findStrategy e = none) :
    handleError now e s = (s.currentServiceStatus, s) := by
  simp [handleError, h]

/-- **C1 (counterexample).** After a strategy firing at time 0,
`attemptRecovery` at 31 minutes returns `true` — but `getCurrentStatus`
still reports the degraded status: only `currentServiceLevel` is reset
to FULL, `currentServiceStatus` is never rebuilt. -/
theorem attemptRecovery_stale_status_counterexample :
    (attemptRecovery (31 * 60 * 1000)
      (handleError 0 { message := "api down", severity := .high, category := .externalService }
        initDegState).2).1 = true ∧
    (getCurrentStatus (attemptRecovery (31 * 60 * 1000)
      (handleError 0 { message := "api down", severity := .high, category := .externalService }
        initDegState).2).2).level = ServiceLevel.degraded ∧
    (getCurrentStatus (attemptRecovery (31 * 60 * 1000)
      (handleError 0 { message := "api down", severity := .high, category := .externalService }
        initDegState).2).2).level ≠ ServiceLevel.full ∧
    (attemptRecovery (31 * 60 * 1000)
      (handleError 0 { message := "api down", severity := .high, category := .externalService }
        initDegState).2).2.currentServiceLevel = ServiceLevel.full := by
  refine ⟨?_, ?_, ?_, ?_⟩ <;> decide

/-- **C1 (amended).** `attemptRecovery`: (i) returns `true` immediately
at FULL, unchanged; (ii) when the level is not FULL and more than 30
minutes have passed since the last degradation, it returns `true` and
sets the internal `currentServiceLevel` to FULL — but `getCurrentStatus`
still returns the previous (degraded) `ServiceStatus`, not a FULL one;
(iii) when the window has not elapsed it returns `false` and changes
nothing. -/
theorem attemptRecovery_semantics :
    (∀ (s : DegState) (now : Int), s.currentServiceLevel = .full →
      attemptRecovery now s = (true, s))
  ∧ (∀ (s : DegState) (now t : Int), s.currentServiceLevel ≠ .full →
      s.lastDegradation = some t → 30 * 60 * 1000 < now - t →
      (attemptRecovery now s).1 = true ∧
      (attemptRecovery now s).2.currentServiceLevel = .full ∧
      getCurrentStatus (attemptRecovery now s).2 = getCurrentStatus s)
  ∧ (∀ (s : DegState) (now t : Int), s.currentServiceLevel ≠ .full →
      s.lastDegradation = some t → now - t ≤ 30 * 60 * 1000 →
      attemptRecovery now s = (false, s)) := by
  refine ⟨?_, ?_, ?_⟩
  · intro s now h
    simp [attemptRecovery, h]
  · intro s now t hne hlast hgt
    simp only [attemptRecovery, if_neg hne, hlast]
    rw [if_pos hgt]
    exact ⟨rfl, rfl, rfl⟩
  · intro s now t hne hlast hle
    simp only [attemptRecovery, if_neg hne, hlast]
    rw [if_neg (by omega)]

/-- Witness for C1: the degraded manager of the counterexample scenario,
read 31 minutes after its only degradation. -/
theorem attemptRecovery_semantics_witness :
    (attemptRecovery (31 * 60 * 1000)
      (handleError 0 { message := "db down", severity := .high, category := .network }
        initDegState).2).1 = true ∧
    (attemptRecovery (31 * 60 * 1000)
      (handleError 0 { message := "db down", severity := .high, category := .network }
        initDegState).2).2.currentServiceLevel = .full ∧
    getCurrentStatus (attemptRecovery (31 * 60 * 1000)
      (handleError 0 { message := "db down", severity := .high, category := .network }
        initDegState).2).2 =
      getCurrentStatus
        (handleError 0 { message := "db down", severity := .high, category := .network }
          initDegState).2 :=
  attemptRecovery_semantics.2.1
    (handleError 0 { message := "db down", severity := .high, category := .network }
      initDegState).2
    (31 * 60 * 1000) 0 (by decide) (by decide) (by decide)

/-- **C2 (counterexample).** A strategy firing from FULL installs and
returns a DEGRADED status, but the history event appended by the same
call carries level FULL — `recordDegradation` runs before the strategy
action updates the level. -/
theorem degradationEvent_target_level_counterexample :
    ((handleError 5 { message := "api down", severity := .high, category := .externalService }
        initDegState).1.level = ServiceLevel.degraded) ∧
    ((handleError 5 { message := "api down", severity := .high, category := .externalService }
        initDegState).2.currentServiceLevel = ServiceLevel.degraded) ∧
    ((handleError 5 { message := "api down", severity := .high, category := .externalService }
        initDegState).2.degradationHistory.map (fun ev => ev.level) =
      [ServiceLevel.full]) := by
  refine ⟨?_, ?_, ?_⟩ <;> decide

/-- **C2 (amended).** When a strategy fires, the returned status is the
strategy's target status and is installed as current (level included),
while the appended `DegradationEvent` carries the service level that was
current *before* the firing, not the target level. -/
theorem handleError_event_prior_level :
    ∀ (s : DegState) (now : Int) (e : AILintErrorModel) (strat : DegradationStrategy),
      findStrategy e = some strat →
      (handleError now e s).1 = strat.action now ∧
      (handleError now e s).2.currentServiceStatus = strat.action now ∧
      (handleError now e s).2.currentServiceLevel = (strat.action now).level ∧
      (handleError now e s).2.degradationHistory.getLast? =
        some { timestamp := now, level := s.currentServiceLevel,
               reason := strat.name ++ ": " ++ e.message } := by
  intro s now e strat h
  rw [handleError_some h]
  exact ⟨rfl, rfl, rfl, sliceLast50_getLast _ _⟩

/-- Witness for C2: the external-service strategy firing at time 5 on a
fresh manager. -/
theorem handleError_event_prior_level_witness :
    (handleError 5 { message := "rate limited", severity := .high, category := .externalService }
        initDegState).2.degradationHistory.getLast? =
      some { timestamp := 5, level := ServiceLevel.full,
             reason := "github-api-fallback: rate limited" } ∧
    (handleError 5 { message := "rate limited", severity := .high, category := .externalService }
        initDegState).2.currentServiceLevel = ServiceLevel.degraded :=
  let h := handleError_event_prior_level initDegState 5
    { message := "rate limited", severity := .high, category := .externalService }
    { name := "github-api-fallback",
      condition := fun e => e.category = .externalService,
      action := fallbackToLocalRules,
      description := "Use local rules when GitHub API is unavailable" }
    rfl
  ⟨h.2.2.2.trans (by decide), h.2.2.1.trans (by decide)⟩

/-- A run of `handleError` calls keeps the history within 50 events. -/
theorem runHandleErrors_length_le (inputs : List (Int × AILintErrorModel)) :
    ∀ (s : DegState), s.degradationHistory.length ≤ 50 →
      (runHandleErrors inputs s).degradationHistory.length ≤ 50 := by
  induction inputs with
  | nil => intro s h; exact h
  | cons p rest ih =>
    intro s h
    show (runHandleErrors rest (handleError p.1 p.2 s).2).degradationHistory.length ≤ 50
    apply ih
    cases hf : findStrategy p.2 with
    | none => rw [handleError_none hf]; exact h
    | some strat => rw [handleError_some hf]; exact sliceLast50_length_le _

/-- When every call fires, the history's timestamps after a run are the
last ≤ 50 of the prior timestamps followed by the calls' timestamps in
arrival order. -/
theorem runHandleErrors_timestamps (inputs : List (Int × AILintErrorModel)) :
    ∀ (s : DegState), s.degradationHistory.length ≤ 50 →
      (∀ p ∈ inputs, (findStrategy p.2).isSome) →
      (runHandleErrors inputs s).degradationHistory.map (fun ev => ev.timestamp) =
        sliceLast50 ((s.degradationHistory.map (fun ev => ev.timestamp)) ++
          inputs.map Prod.fst) := by
  induction inputs with
  | nil =>
    intro s h _
    show s.degradationHistory.map _ = sliceLast50 (s.degradationHistory.map _ ++ [])
    rw [List.append_nil, sliceLast50_of_le]
    rw [List.length_map]
    exact h
  | cons p rest ih =>
    intro s h hall
    obtain ⟨strat, hstrat⟩ : ∃ strat, findStrategy p.2 = some strat :=
      Option.isSome_iff_exists.mp (hall p (List.mem_cons_self p rest))
    have hlen2 : (handleError p.1 p.2 s).2.degradationHistory.length ≤ 50 := by
      rw [handleError_some hstrat]
      exact sliceLast50_length_le _
    have hall2 : ∀ q ∈ rest, (findStrategy q.2).isSome :=
      fun q hq => hall q (List.mem_cons_of_mem p hq)
    have hhist : (handleError p.1 p.2 s).2.degradationHistory =
        sliceLast50 (s.degradationHistory ++
          [{ timestamp := p.1, level := s.currentServiceLevel,
             reason := strat.name ++ ": " ++ p.2.message }]) := by
      rw [handleError_some hstrat]
    show (runHandleErrors rest (handleError p.1 p.2 s).2).degradationHistory.map _ = _
    rw [ih (handleError p.1 p.2 s).2 hlen2 hall2, hhist, sliceLast50_map,
      sliceLast50_append_absorb]
    congr 1
    simp [List.map_append]

/-- **C9.** After every sequence of `handleError` calls (from any state
with a legal history): (i) the history length never exceeds 50; (ii)
when every call fires, the history's timestamps are exactly the last
≤ 50 call timestamps in arrival order — newest last, oldest dropped;
(iii) for calls with nondecreasing clock readings the reported history
is chronological. -/
theorem degradationHistory_capped_newest_last :
    (∀ (inputs : List (Int × AILintErrorModel)) (s : DegState),
      s.degradationHistory.length ≤ 50 →
      (runHandleErrors inputs s).degradationHistory.length ≤ 50)
  ∧ (∀ (inputs : List (Int × AILintErrorModel)) (s : DegState),
      s.degradationHistory.length ≤ 50 →
      (∀ p ∈ inputs, (findStrategy p.2).isSome) →
      (getDegradationHistory (runHandleErrors inputs s)).map (fun ev => ev.timestamp) =
        sliceLast50 ((s.degradationHistory.map (fun ev => ev.timestamp)) ++
          inputs.map Prod.fst))
  ∧ (∀ (inputs : List (Int × AILintErrorModel)),
      (∀ p ∈ inputs, (findStrategy p.2).isSome) →
      (inputs.map Prod.fst).Pairwise (· ≤ ·) →
      ((getDegradationHistory (runHandleErrors inputs initDegState)).map
        (fun ev => ev.timestamp)).Pairwise (· ≤ ·)) := by
  refine ⟨fun inputs s h => runHandleErrors_length_le inputs s h, ?_, ?_⟩
  · intro inputs s h hall
    exact runHandleErrors_timestamps inputs s h hall
  · intro inputs hall hsorted
    show ((runHandleErrors inputs initDegState).degradationHistory.map
      (fun ev => ev.timestamp)).Pairwise (· ≤ ·)
    rw [runHandleErrors_timestamps inputs initDegState (by simp [initDegState]) hall]
    show (sliceLast50 (inputs.map Prod.fst)).Pairwise (· ≤ ·)
    exact List.Pairwise.sublist (List.drop_sublist _ _) hsorted

/-- Witness for C9: sixty firings at times 1..60 leave exactly the 50
most recent events, with timestamps 11..60 in order. -/
theorem degradationHistory_capped_newest_last_witness :
    (getDegradationHistory (runHandleErrors
        ((List.range 60).map (fun i => ((i : Int) + 1,
          ({ message := "api down", severity := .high,
             category := .externalService } : AILintErrorModel))))
        initDegState)).map (fun ev => ev.timestamp) =
      (List.range 50).map (fun i => (i : Int) + 11) :=
  (degradationHistory_capped_newest_last.2.1
    ((List.range 60).map (fun i => ((i : Int) + 1,
      ({ message := "api down", severity := .high,
         category := .externalService } : AILintErrorModel))))
    initDegState (by decide) (by decide)).trans (by decide)

end AILint
